import Mathlib

/-!
Verification of a JavaScript BLAKE3 repository (bounty submissions plus a
reference port).  The definitions below are a shallow embedding of the
relevant source files:

* `refCompress`, `refHash`, … — the readable reference port
  (`blake3-fast/reference.ts`, 7-round compression, Merkle-tree hash);
* `optCompress`, `optHash`, … — the optimized implementation
  (`blake3-fast/optimized.ts`, unrolled rounds with hard-coded schedules);
* the streaming hasher (`blake3-fast/index.ts`): `updateBytes`,
  `digestBytes`, `pushCvStack`, `createHash`, `keyedHash`, `deriveKey`;
* the hard-coded message-schedule table of the `Blake3inJavasScript`
  candidate.

Machine integers are modelled as `Nat` with explicit reduction modulo
`2 ^ 32` exactly where JavaScript performs `>>> 0` / typed-array storage.
Mutable `Uint32Array` state is modelled as `List Nat` with in-place writes
becoming `List.set`.
-/

namespace B3

/-- 32-bit wrap-around addition: JS `(x + y) >>> 0`. -/
def add32 (x y : Nat) : Nat := (x + y) % 4294967296

/-- 32-bit right-rotation, from `utils.ts` `rotr32`:
`((x >>> n) | (x << (32 - n))) >>> 0`. -/
def rotr32 (x n : Nat) : Nat :=
  Nat.lor (x >>> n) ((x <<< (32 - n)) % 4294967296)

/-- Read of a typed array cell; out-of-bounds reads give `undefined`,
which the surrounding arithmetic coerces to `0`. -/
def idx (l : List Nat) (i : Nat) : Nat := l.getD i 0

/-- In-place write of a typed array cell. -/
def upd (l : List Nat) (i v : Nat) : List Nat := l.set i v

/-- Initialization vector (`constants.js` `IV`). -/
def IV : List Nat :=
  [0x6a09e667, 0xbb67ae85, 0x3c6ef372, 0xa54ff53a,
   0x510e527f, 0x9b05688c, 0x1f83d9ab, 0x5be0cd19]

/-- Flag constants (`constants.js`). -/
def CHUNK_START : Nat := 1
def CHUNK_END : Nat := 2
def PARENT : Nat := 4
def ROOT : Nat := 8
def KEYED_HASH : Nat := 16
def DERIVE_KEY_CONTEXT : Nat := 32
def DERIVE_KEY_MATERIAL : Nat := 64

/-- Message word permutation (`constants.js` `MSG_PERMUTATION`). -/
def MSG_PERMUTATION : List Nat :=
  [2, 6, 3, 10, 7, 0, 4, 13, 1, 11, 12, 5, 9, 14, 15, 8]

/-- `row.map (m[·])`: the list whose `i`-th entry is `m[row[i]]`. -/
def mapRow (row m : List Nat) : List Nat := row.map (fun j => idx m j)

/-- `reference.ts` `permute`: `m[i] = original[MSG_PERMUTATION[i]]`. -/
def permute (m : List Nat) : List Nat := mapRow MSG_PERMUTATION m

/-- Quarter-round G (`reference.ts` `g`): mixes state cells `a b c d`
with message words `mx my`. -/
def g (st : List Nat) (a b c d mx my : Nat) : List Nat :=
  let s1 := upd st a (add32 (add32 (idx st a) (idx st b)) mx)
  let s2 := upd s1 d (rotr32 (Nat.xor (idx s1 d) (idx s1 a)) 16)
  let s3 := upd s2 c (add32 (idx s2 c) (idx s2 d))
  let s4 := upd s3 b (rotr32 (Nat.xor (idx s3 b) (idx s3 c)) 12)
  let s5 := upd s4 a (add32 (add32 (idx s4 a) (idx s4 b)) my)
  let s6 := upd s5 d (rotr32 (Nat.xor (idx s5 d) (idx s5 a)) 8)
  let s7 := upd s6 c (add32 (idx s6 c) (idx s6 d))
  upd s7 b (rotr32 (Nat.xor (idx s7 b) (idx s7 c)) 7)

/-- One compression round (`reference.ts` `round`): G over the four
columns, then the four diagonals, reading message words from `m`. -/
def roundWith (st m : List Nat) : List Nat :=
  let s := g st 0 4 8 12 (idx m 0) (idx m 1)
  let s := g s 1 5 9 13 (idx m 2) (idx m 3)
  let s := g s 2 6 10 14 (idx m 4) (idx m 5)
  let s := g s 3 7 11 15 (idx m 6) (idx m 7)
  let s := g s 0 5 10 15 (idx m 8) (idx m 9)
  let s := g s 1 6 11 12 (idx m 10) (idx m 11)
  let s := g s 2 7 8 13 (idx m 12) (idx m 13)
  g s 3 4 9 14 (idx m 14) (idx m 15)

/-- Uint8Array cell read: stored values are bytes. -/
def byteAt (b : List Nat) (i : Nat) : Nat := (b.getD i 0) % 256

/-- `DataView.getUint32(o, true)`: little-endian 32-bit load. -/
def loadLE32 (b : List Nat) (o : Nat) : Nat :=
  byteAt b o + byteAt b (o + 1) * 256 +
    byteAt b (o + 2) * 65536 + byteAt b (o + 3) * 16777216

/-- Parse a 64-byte block into 16 little-endian words
(the load loop at the top of both `compress` functions). -/
def loadWords16 (block : List Nat) : List Nat :=
  (List.range 16).map (fun i => loadLE32 block (4 * i))

/-- The 16-word initial compression state shared by both `compress`
functions: chaining value, first four IV words, counter halves
(`counter & 0xffffffff`, `(counter >> 32) & 0xffffffff`), block length,
flags. -/
def initState (cv : List Nat) (counter blockLen flags : Nat) : List Nat :=
  [idx cv 0, idx cv 1, idx cv 2, idx cv 3,
   idx cv 4, idx cv 5, idx cv 6, idx cv 7,
   idx IV 0, idx IV 1, idx IV 2, idx IV 3,
   counter % 4294967296, (counter / 4294967296) % 4294967296,
   blockLen, flags]

/-- Feed-forward of `reference.ts` `compress`: only
`state[i] ^= state[i + 8]` for `i < 8`; the upper eight entries are
returned unchanged (the result is the 16-entry array after the loop). -/
def feedForwardLow (st : List Nat) : List Nat :=
  [Nat.xor (idx st 0) (idx st 8), Nat.xor (idx st 1) (idx st 9),
   Nat.xor (idx st 2) (idx st 10), Nat.xor (idx st 3) (idx st 11),
   Nat.xor (idx st 4) (idx st 12), Nat.xor (idx st 5) (idx st 13),
   Nat.xor (idx st 6) (idx st 14), Nat.xor (idx st 7) (idx st 15),
   idx st 8, idx st 9, idx st 10, idx st 11,
   idx st 12, idx st 13, idx st 14, idx st 15]

/-- Feed-forward of `optimized.ts` `compress`:
`STATE[i] = s_i ^ s_{i+8}` and `STATE[8+i] = s_{8+i} ^ cv[i]`. -/
def feedForwardFull (st cv : List Nat) : List Nat :=
  [Nat.xor (idx st 0) (idx st 8), Nat.xor (idx st 1) (idx st 9),
   Nat.xor (idx st 2) (idx st 10), Nat.xor (idx st 3) (idx st 11),
   Nat.xor (idx st 4) (idx st 12), Nat.xor (idx st 5) (idx st 13),
   Nat.xor (idx st 6) (idx st 14), Nat.xor (idx st 7) (idx st 15),
   Nat.xor (idx st 8) (idx cv 0), Nat.xor (idx st 9) (idx cv 1),
   Nat.xor (idx st 10) (idx cv 2), Nat.xor (idx st 11) (idx cv 3),
   Nat.xor (idx st 12) (idx cv 4), Nat.xor (idx st 13) (idx cv 5),
   Nat.xor (idx st 14) (idx cv 6), Nat.xor (idx st 15) (idx cv 7)]

/-- `reference.ts` `compress`: seven rounds with `permute` between them
(no permute after the last round), then the lower-half feed-forward. -/
def refCompress (cv block : List Nat) (counter blockLen flags : Nat) : List Nat :=
  let m0 := loadWords16 block
  let s := roundWith (initState cv counter blockLen flags) m0
  let m1 := permute m0
  let s := roundWith s m1
  let m2 := permute m1
  let s := roundWith s m2
  let m3 := permute m2
  let s := roundWith s m3
  let m4 := permute m3
  let s := roundWith s m4
  let m5 := permute m4
  let s := roundWith s m5
  let m6 := permute m5
  feedForwardLow (roundWith s m6)

/-- Hard-coded message schedules of the unrolled rounds 1–6 in
`optimized.ts` `compress` (the round headers there). -/
def SCHED1 : List Nat := [2, 6, 3, 10, 7, 0, 4, 13, 1, 11, 12, 5, 9, 14, 15, 8]
def SCHED2 : List Nat := [3, 4, 10, 12, 13, 2, 7, 14, 6, 5, 9, 0, 11, 15, 8, 1]
def SCHED3 : List Nat := [10, 7, 12, 9, 14, 3, 13, 15, 4, 0, 11, 2, 5, 8, 1, 6]
def SCHED4 : List Nat := [12, 13, 9, 11, 15, 10, 14, 8, 7, 2, 5, 3, 0, 1, 6, 4]
def SCHED5 : List Nat := [9, 14, 11, 5, 8, 12, 15, 1, 13, 3, 0, 10, 2, 6, 4, 7]
def SCHED6 : List Nat := [11, 15, 5, 0, 1, 9, 8, 6, 14, 10, 2, 12, 3, 4, 7, 13]

/-- `optimized.ts` `compress`: the fully unrolled rounds; round `r` reads
message word `m[SCHEDr[i]]` at position `i` of the G-pattern (`mapRow`
evaluates to exactly those index lists), followed by the two-halves
feed-forward. -/
def optCompress (cv block : List Nat) (counter blockLen flags : Nat) : List Nat :=
  let m := loadWords16 block
  let s := roundWith (initState cv counter blockLen flags) m
  let s := roundWith s (mapRow SCHED1 m)
  let s := roundWith s (mapRow SCHED2 m)
  let s := roundWith s (mapRow SCHED3 m)
  let s := roundWith s (mapRow SCHED4 m)
  let s := roundWith s (mapRow SCHED5 m)
  let s := roundWith s (mapRow SCHED6 m)
  feedForwardFull s cv

/-- The state of `reference.ts` `compress` right after its seventh round,
before the feed-forward loop: lines 113-161 of the function, cut before
`for (let i = 0; i < 8; i++)`. -/
def refRounds (cv block : List Nat) (counter blockLen flags : Nat) : List Nat :=
  let m0 := loadWords16 block
  let s := roundWith (initState cv counter blockLen flags) m0
  let m1 := permute m0
  let s := roundWith s m1
  let m2 := permute m1
  let s := roundWith s m2
  let m3 := permute m2
  let s := roundWith s m3
  let m4 := permute m3
  let s := roundWith s m4
  let m5 := permute m4
  let s := roundWith s m5
  let m6 := permute m5
  roundWith s m6

/-- The state of `optimized.ts` `compress` after its seven unrolled
rounds, before the feed-forward assignments. -/
def optRounds (cv block : List Nat) (counter blockLen flags : Nat) : List Nat :=
  let m := loadWords16 block
  let s := roundWith (initState cv counter blockLen flags) m
  let s := roundWith s (mapRow SCHED1 m)
  let s := roundWith s (mapRow SCHED2 m)
  let s := roundWith s (mapRow SCHED3 m)
  let s := roundWith s (mapRow SCHED4 m)
  let s := roundWith s (mapRow SCHED5 m)
  roundWith s (mapRow SCHED6 m)

/-! ### Byte serialization and small helpers -/

/-- `index.ts` / `optimized.ts` `wordsToOutput`: byte `i` of the output is
`(state[i >>> 2] >>> ((i & 3) * 8)) & 0xff`; reading past the word array
yields `undefined`, which `>>>` coerces to `0`. -/
def wordsToOutput (state : List Nat) (length : Nat) : List Nat :=
  (List.range length).map (fun i => ((idx state (i / 4)) >>> ((i % 4) * 8)) % 256)

/-- `utils.ts` `wordsToBytes`: walks the output four bytes at a time,
serializing `words[i >>> 2]` little-endian; per byte this is the same
formula as `wordsToOutput` (writes past the end of the `Uint8Array` are
dropped, out-of-range word reads give `undefined` whose `& 0xff` is 0). -/
def wordsToBytes (words : List Nat) (byteLength : Nat) : List Nat :=
  (List.range byteLength).map (fun i => ((idx words (i / 4)) >>> ((i % 4) * 8)) % 256)

/-- Zero-pad a partial block to 64 bytes
(`const block = new Uint8Array(BLOCK_LEN); block.set(...)`). -/
def padBlock (b : List Nat) : List Nat := b ++ List.replicate (64 - b.length) 0

/-- Parent message block: left CV then right CV serialized little-endian
(the `setUint32(i * 4, left[i], true)` / `setUint32(32 + i * 4, right[i],
true)` loops). -/
def parentBlockBytes (l r : List Nat) : List Nat :=
  wordsToBytes l 32 ++ wordsToBytes r 32

/-- The shift loop of `utils.ts` `ctz64`, with a structural fuel: the
fuel only bounds the number of iterations and `ctzAux_fuel_irrel` shows
any fuel of at least `x` computes the loop exactly. -/
def ctzAux : Nat → Nat → Nat
  | 0, _ => 0
  | fuel + 1, x => if x % 2 = 1 then 0 else 1 + ctzAux fuel (x / 2)

/-- `utils.ts` `ctz64`: count of trailing zero bits, 64 for zero. -/
def ctz64 (x : Nat) : Nat :=
  if x = 0 then 64 else ctzAux x x

/-- `Math.ceil(a / b)` on natural numbers. -/
def ceilDiv (a b : Nat) : Nat := (a + b - 1) / b

/-- Number of blocks driven through a chunk:
`Math.max(Math.ceil(len / 64), 1)` in `index.ts`; `optimized.ts` writes
the same value as `Math.ceil(len / 64) || 1`. -/
def numBlocksFor (len : Nat) : Nat := max (ceilDiv len 64) 1

/-! ### Chunk processing (`index.ts` `processChunk`, `hashSingleChunk`;
`optimized.ts` `chainingValue` and the single-chunk branch of `hash`) -/

/-- `index.ts` `processChunk`: drive `numBlocks` blocks of `chunk`
through the optimized compression, chaining the first eight output words;
`chunkLen` is the `actualLen ?? chunk.length` byte count.  Block `i`
starts at `i * 64` (the source advances `blockStart` by 64 per
iteration), its length is the truncated difference `blockEnd -
blockStart` (the source guards the subtraction with a ternary). -/
def processChunk (chunk : List Nat) (chunkCounter flags : Nat)
    (initialCv : List Nat) (chunkLen : Nat) : List Nat :=
  let n := numBlocksFor chunkLen
  (List.range n).foldl
    (fun cv i =>
      let blockStart := i * 64
      let blockEnd := min (blockStart + 64) chunkLen
      let blockLen := blockEnd - blockStart
      let block := padBlock ((chunk.drop blockStart).take blockLen)
      let bf := Nat.lor (Nat.lor flags (if i = 0 then CHUNK_START else 0))
        (if i = n - 1 then CHUNK_END else 0)
      (optCompress cv block chunkCounter blockLen bf).take 8)
    initialCv

/-- `optimized.ts` `chainingValue`: same per-block loop as
`processChunk`, starting from `IV`, with `chunkLen = chunk.length`. -/
def chainingValueOpt (chunk : List Nat) (chunkCounter flags : Nat) : List Nat :=
  processChunk chunk chunkCounter flags IV chunk.length

/-- The root-chunk loop shared (line for line) by `index.ts`
`hashSingleChunk`, the single-chunk branch of `optimized.ts` `hash`, and
`index.ts` `deriveContextCv`: all blocks before the last chain the CV;
the last block additionally carries `CHUNK_END | ROOT` and its full
16-word compression state is the result.  The counter is always 0. -/
def singleChunkRootState (chunk : List Nat) (chunkLen baseFlags : Nat)
    (cv0 : List Nat) : List Nat :=
  let n := numBlocksFor chunkLen
  let cv := (List.range (n - 1)).foldl
    (fun cv i =>
      let blockStart := i * 64
      let blockEnd := min (blockStart + 64) chunkLen
      let blockLen := blockEnd - blockStart
      let block := padBlock ((chunk.drop blockStart).take blockLen)
      let bf := Nat.lor baseFlags (if i = 0 then CHUNK_START else 0)
      (optCompress cv block 0 blockLen bf).take 8)
    cv0
  let blockStart := (n - 1) * 64
  let blockEnd := min (blockStart + 64) chunkLen
  let blockLen := blockEnd - blockStart
  let block := padBlock ((chunk.drop blockStart).take blockLen)
  let bf := Nat.lor (Nat.lor baseFlags (if n - 1 = 0 then CHUNK_START else 0))
    (Nat.lor CHUNK_END ROOT)
  optCompress cv block 0 blockLen bf

/-! ### Parent nodes and stack merging

CV stacks are represented top-first: the JS arrays push and pop at their
end, so the head of our lists is the array's last element and the base of
the stack is the end of the list. -/

/-- `index.ts` `parentCv`: compress `left || right` with the mode's key
CV, counter 0, block length 64, `flags | PARENT`, keeping eight words.
`optimized.ts` `parentCv` is the same function with `keyCv = IV`. -/
def parentCv (l r : List Nat) (flags : Nat) (keyCv : List Nat) : List Nat :=
  (optCompress keyCv (parentBlockBytes l r) 0 64 (Nat.lor flags PARENT)).take 8

/-- `index.ts` `parentCvWithRoot`: the root parent compression, serialized
to `outputLength` bytes. -/
def parentCvWithRoot (l r : List Nat) (flags outputLength : Nat)
    (keyCv : List Nat) : List Nat :=
  wordsToOutput
    (optCompress keyCv (parentBlockBytes l r) 0 64
      (Nat.lor (Nat.lor flags PARENT) ROOT)) outputLength

/-- The merge loop of `index.ts` `pushCv`:
`while (mergeCount > 0 && cvStack.length >= 2) { pop right, pop left,
push parent }`. -/
def mergeN (flags : Nat) (keyCv : List Nat) : Nat → List (List Nat) → List (List Nat)
  | 0, s => s
  | n + 1, r :: l :: rest => mergeN flags keyCv n (parentCv l r flags keyCv :: rest)
  | _ + 1, s => s

/-- `index.ts` `pushCv`: push the chunk CV, then merge
`ctz64(chunkCounter + 1)` times. -/
def pushCvStack (stack : List (List Nat)) (cv : List Nat)
    (chunkCounter flags : Nat) (keyCv : List Nat) : List (List Nat) :=
  mergeN flags keyCv (ctz64 (chunkCounter + 1)) (cv :: stack)

/-- The stack-collapsing loop shared by `index.ts` `digest` and
`optimized.ts` `hash`, with a structural fuel (each iteration shortens the
stack, so fuel `s.length` runs the loop to completion). -/
def mergeWhileAux (flags : Nat) (keyCv : List Nat) :
    Nat → List (List Nat) → List (List Nat)
  | 0, s => s
  | fuel + 1, r :: l :: c :: rest =>
    mergeWhileAux flags keyCv fuel (parentCv l r flags keyCv :: c :: rest)
  | _ + 1, s => s

/-- `while (stack.length > 2) { pop two, push parent }` (the optimized
caller instantiates `flags = 0`, `keyCv = IV`). -/
def mergeWhileGT2 (flags : Nat) (keyCv : List Nat)
    (s : List (List Nat)) : List (List Nat) :=
  mergeWhileAux flags keyCv s.length s

/-- The guarded merge loop of the complete-chunk pass of `optimized.ts` /
`reference.ts` `hash`: like `mergeN`, but when the chunk just pushed is
chunk `totalChunks` the loop breaks once two entries remain. -/
def mergeGuard (isLast : Bool) (flags : Nat) (keyCv : List Nat) :
    Nat → List (List Nat) → List (List Nat)
  | 0, s => s
  | n + 1, r :: l :: rest =>
    if isLast = true ∧ rest = [] then r :: l :: rest
    else mergeGuard isLast flags keyCv n (parentCv l r flags keyCv :: rest)
  | _ + 1, s => s

/-! ### The streaming hasher (`index.ts` `createHash` / `createHashInternal`)

The 1024-byte chunk buffer together with its fill level `chunkPos` is
modelled as the list `buf` of its first `chunkPos` bytes: the buffer is
written monotonically from position 0 within a chunk and every read stays
below the fill level, so the stale tail is never observed. -/

structure HState where
  cv : List Nat
  buf : List Nat
  chunkCounter : Nat
  cvStack : List (List Nat)
  flags : Nat
deriving DecidableEq

/-- The chunk-completion step inside `update`: compress the buffered
chunk, `pushCv` it, advance the counter, empty the buffer. -/
def processAndPush (st : HState) : HState :=
  { st with
    buf := []
    chunkCounter := st.chunkCounter + 1
    cvStack := pushCvStack st.cvStack
      (processChunk st.buf st.chunkCounter st.flags st.cv st.buf.length)
      st.chunkCounter st.flags st.cv }

/-- `index.ts` `update` (identical in `createHash` and
`createHashInternal`): copy input into the chunk buffer, compressing a
buffered full chunk whenever more input remains.  The `toCopy = 0` guard
only makes the function total; it never fires on states reachable from a
fresh hasher, whose buffer holds at most 1024 bytes. -/
def updateBytes (st : HState) (bytes : List Nat) : HState :=
  if bytes = [] then st
  else if st.buf.length = 1024 then updateBytes (processAndPush st) bytes
  else
    let toCopy := min (1024 - st.buf.length) bytes.length
    if toCopy = 0 then st
    else updateBytes { st with buf := st.buf ++ bytes.take toCopy } (bytes.drop toCopy)
termination_by bytes.length * 2 + (if st.buf.length = 1024 then 1 else 0)
decreasing_by
  · simp_all [processAndPush]
  · simp only [List.length_drop, List.length_append, List.length_take]
    split <;> omega

/-- The 16-word root compression state produced by `index.ts` `digest`:
either the buffered single chunk finalized with `ROOT`
(`hashSingleChunk`), or the final chunk's CV folded through the stack and
closed with a `PARENT | ROOT` compression.  `digest` serializes this
state with `wordsToOutput` (in the impossible singleton/empty leftovers
the serialized words are the bare stack entry). -/
def digestRootState (st : HState) : List Nat :=
  if st.chunkCounter = 0 ∧ st.cvStack = [] then
    singleChunkRootState st.buf st.buf.length st.flags st.cv
  else
    let cv := processChunk st.buf st.chunkCounter st.flags st.cv st.buf.length
    match mergeWhileGT2 st.flags st.cv (cv :: st.cvStack) with
    | [r, l] =>
      optCompress st.cv (parentBlockBytes l r) 0 64
        (Nat.lor (Nat.lor st.flags PARENT) ROOT)
    | t :: _ => t
    | [] => []

/-- `index.ts` `digest` / `finalize`. -/
def digestBytes (st : HState) (outputLength : Nat) : List Nat :=
  wordsToOutput (digestRootState st) outputLength

/-- `digest` together with the state it leaves behind: the source body
assigns to no field of `state` (it reads the buffer, counter, stack, CV
and flags, and works on the local `tempStack` copy), so the state
component of the translation is the input state itself. -/
def digestS (st : HState) (outputLength : Nat) : List Nat × HState :=
  (digestBytes st outputLength, st)

/-- `index.ts` `keyToCV`: a 32-byte key as eight little-endian words. -/
def keyToCV (key : List Nat) : List Nat :=
  (List.range 8).map (fun i => loadLE32 key (4 * i))

/-- The state of a fresh plain hasher (`createHash()` without key). -/
def initHasher : HState := ⟨IV, [], 0, [], 0⟩

/-- `index.ts` `createHash`: throws unless the optional key is exactly 32
bytes; keyed hashers start from the key as CV with the `KEYED_HASH`
flag. -/
def createHash (key : Option (List Nat)) : Except String HState :=
  match key with
  | none => .ok initHasher
  | some k =>
    if k.length ≠ 32 then .error "Key must be 32 bytes"
    else .ok ⟨keyToCV k, [], 0, [], KEYED_HASH⟩

/-- `index.ts` `keyedHash`: check the key length, then hash through a
keyed streaming hasher. -/
def keyedHash (key input : List Nat) (outputLength : Nat) : Except String (List Nat) :=
  if key.length ≠ 32 then .error "Key must be 32 bytes"
  else .ok (digestBytes (updateBytes ⟨keyToCV key, [], 0, [], KEYED_HASH⟩ input) outputLength)

/-- `index.ts` `createHashInternal`: a hasher with the given CV and base
flags. -/
def mkInternal (cv : List Nat) (flags : Nat) : HState := ⟨cv, [], 0, [], flags⟩

/-- `index.ts` `deriveContextCv`: the context bytes are driven through a
single chunk (counter 0, base flags `DERIVE_KEY_CONTEXT`, `ROOT` on the
final block) no matter how long they are — the block loop simply
continues past block 16.  The returned CV is the first eight words of the
final compression state. -/
def deriveContextCv (context : List Nat) : List Nat :=
  (singleChunkRootState context context.length DERIVE_KEY_CONTEXT IV).take 8

/-- `index.ts` `deriveKey`: hash the key material with the derived
context CV and `DERIVE_KEY_MATERIAL` base flags. -/
def deriveKey (context material : List Nat) (outputLength : Nat) : List Nat :=
  digestBytes
    (updateBytes (mkInternal (deriveContextCv context) DERIVE_KEY_MATERIAL) material)
    outputLength

/-! ### One-shot hashes -/

/-- The complete-chunk loop of `optimized.ts` `hash`: process chunk `c`
(bytes `1024 c` through `1024 c + 1024`), merge `ctz64(c + 1)` times with
the last-chunk guard, and continue while a full chunk remains. -/
def optLoop (input : List Nat) (total : Nat) : Nat → List (List Nat) → List (List Nat)
  | c, stack =>
    if 1024 * c + 1024 ≤ input.length then
      optLoop input total (c + 1)
        (mergeGuard (decide (c + 1 = total)) 0 IV (ctz64 (c + 1))
          (chainingValueOpt ((input.drop (1024 * c)).take 1024) c 0 :: stack))
    else stack
termination_by c => input.length - 1024 * c
decreasing_by omega

/-- The multi-chunk tail of `optimized.ts` `hash`: complete chunks, the
final partial chunk if any, collapse the stack to two entries, and the
`PARENT | ROOT` compression (the unreachable `throw` at the bottom is
rendered as a zero digest). -/
def optHashMulti (input : List Nat) (outputLength : Nat) : List Nat :=
  let total := ceilDiv input.length 1024
  let fl := input.length / 1024
  let stack := optLoop input total 0 []
  let stack :=
    if 1024 * fl < input.length then
      chainingValueOpt (input.drop (1024 * fl)) fl 0 :: stack
    else stack
  match mergeWhileGT2 0 IV stack with
  | [r, l] =>
    wordsToOutput
      (optCompress IV (parentBlockBytes l r) 0 64 (Nat.lor PARENT ROOT))
      outputLength
  | _ => List.replicate outputLength 0

/-- `optimized.ts` `hash`: empty input is one empty `ROOT` block; inputs
up to one chunk run the single-chunk root loop; larger inputs build the
Merkle tree. -/
def optHash (input : List Nat) (outputLength : Nat) : List Nat :=
  if input.length = 0 then
    wordsToOutput
      (optCompress IV (padBlock []) 0 0
        (Nat.lor (Nat.lor CHUNK_START CHUNK_END) ROOT)) outputLength
  else if input.length ≤ 1024 then
    wordsToOutput (singleChunkRootState input input.length 0 IV) outputLength
  else optHashMulti input outputLength

/-! ### The reference implementation (`reference.ts`) -/

/-- `reference.ts` `chainingValue`: drive a chunk through `refCompress`
starting from `IV`; `numBlocks = Math.ceil(chunk.length / BLOCK_LEN)`
(no `|| 1` here — the function is only called on nonempty chunks). -/
def refChainingValue (chunk : List Nat) (chunkCounter flags : Nat) : List Nat :=
  let n := ceilDiv chunk.length 64
  (List.range n).foldl
    (fun cv i =>
      let blockStart := i * 64
      let blockEnd := min (blockStart + 64) chunk.length
      let blockLen := blockEnd - blockStart
      let block := padBlock ((chunk.drop blockStart).take blockLen)
      let bf := Nat.lor (Nat.lor flags (if i = 0 then CHUNK_START else 0))
        (if i = n - 1 then CHUNK_END else 0)
      (refCompress cv block chunkCounter blockLen bf).take 8)
    IV

/-- `reference.ts` `parentCv`. -/
def refParentCv (l r : List Nat) (flags : Nat) : List Nat :=
  (refCompress IV (parentBlockBytes l r) 0 64 (Nat.lor flags PARENT)).take 8

/-- The single-chunk branch of `reference.ts` `hash`: same loop as
`singleChunkRootState` with `refCompress`, base flags 0, counter 0
(`numBlocks = Math.ceil(...) || 1`, `blockLen || 0` is just `blockLen`). -/
def refSingleChunkRootState (input : List Nat) : List Nat :=
  let n := numBlocksFor input.length
  let cv := (List.range (n - 1)).foldl
    (fun cv i =>
      let blockStart := i * 64
      let blockEnd := min (blockStart + 64) input.length
      let blockLen := blockEnd - blockStart
      let block := padBlock ((input.drop blockStart).take blockLen)
      let bf := if i = 0 then CHUNK_START else 0
      (refCompress cv block 0 blockLen bf).take 8)
    IV
  let blockStart := (n - 1) * 64
  let blockEnd := min (blockStart + 64) input.length
  let blockLen := blockEnd - blockStart
  let block := padBlock ((input.drop blockStart).take blockLen)
  let bf := Nat.lor (if n - 1 = 0 then CHUNK_START else 0)
    (Nat.lor CHUNK_END ROOT)
  refCompress cv block 0 blockLen bf

/-- `reference.ts` `hash`: guarded merge loop (same shape as
`mergeGuard`, with `refParentCv`). -/
def refMergeGuard (isLast : Bool) (flags : Nat) :
    Nat → List (List Nat) → List (List Nat)
  | 0, s => s
  | n + 1, r :: l :: rest =>
    if isLast = true ∧ rest = [] then r :: l :: rest
    else refMergeGuard isLast flags n (refParentCv l r flags :: rest)
  | _ + 1, s => s

/-- `reference.ts` `hash`: final stack collapse (`while length > 2`). -/
def refMergeWhileGT2 (flags : Nat) : List (List Nat) → List (List Nat)
  | r :: l :: c :: rest => refMergeWhileGT2 flags (refParentCv l r flags :: c :: rest)
  | s => s
termination_by s => s.length
decreasing_by simp

/-- Complete-chunk loop of `reference.ts` `hash` (same shape as
`optLoop`). -/
def refLoop (input : List Nat) (total : Nat) : Nat → List (List Nat) → List (List Nat)
  | c, stack =>
    if 1024 * c + 1024 ≤ input.length then
      refLoop input total (c + 1)
        (refMergeGuard (decide (c + 1 = total)) 0 (ctz64 (c + 1))
          (refChainingValue ((input.drop (1024 * c)).take 1024) c 0 :: stack))
    else stack
termination_by c => input.length - 1024 * c
decreasing_by omega

/-- `reference.ts` `hash`. -/
def refHash (input : List Nat) (outputLength : Nat) : List Nat :=
  if input.length = 0 then
    wordsToBytes
      (refCompress IV (padBlock []) 0 0
        (Nat.lor (Nat.lor CHUNK_START CHUNK_END) ROOT)) outputLength
  else if input.length ≤ 1024 then
    wordsToBytes (refSingleChunkRootState input) outputLength
  else
    let total := ceilDiv input.length 1024
    let fl := input.length / 1024
    let stack := refLoop input total 0 []
    let stack :=
      if 1024 * fl < input.length then
        refChainingValue (input.drop (1024 * fl)) fl 0 :: stack
      else stack
    match refMergeWhileGT2 0 stack with
    | [r, l] =>
      wordsToBytes
        (refCompress IV (parentBlockBytes l r) 0 64 (Nat.lor PARENT ROOT))
        outputLength
    | _ => List.replicate outputLength 0

/-! ### The `Blake3inJavasScript` candidate -/

/-- The hard-coded `MSG_SCHEDULE` table of `Blake3inJavasScript/blake3.js`
(lines 29–44), exactly as written there. -/
def bk3MsgSchedule : List (List Nat) :=
  [[0, 1, 2, 3, 4, 5, 6, 7, 8, 9, 10, 11, 12, 13, 14, 15],
   [2, 6, 3, 10, 7, 0, 4, 13, 1, 11, 12, 5, 9, 14, 15, 8],
   [3, 4, 10, 12, 13, 2, 7, 14, 6, 5, 9, 0, 11, 15, 8, 1],
   [10, 7, 12, 9, 14, 3, 13, 15, 4, 0, 11, 2, 5, 8, 1, 6],
   [7, 12, 9, 14, 3, 13, 15, 4, 0, 11, 2, 5, 8, 1, 6, 10],
   [9, 14, 3, 13, 15, 4, 0, 11, 2, 5, 8, 1, 6, 10, 7, 12],
   [3, 13, 15, 4, 0, 11, 2, 5, 8, 1, 6, 10, 7, 12, 9, 14]]

/-- `utils.ts` `MSG_SCHEDULE` generation: starting from the identity row,
push `next[i] = current[MSG_PERMUTATION[i]]` six times (seven rows in
all). -/
def msgScheduleAux : Nat → List Nat → List (List Nat)
  | 0, _ => []
  | n + 1, current => current :: msgScheduleAux n (mapRow MSG_PERMUTATION current)

/-- `utils.ts` `MSG_SCHEDULE`: the generated 7×16 table. -/
def MSG_SCHEDULE : List (List Nat) :=
  msgScheduleAux 7 [0, 1, 2, 3, 4, 5, 6, 7, 8, 9, 10, 11, 12, 13, 14, 15]

/-! ### Specification-side definitions -/

/-- Modelled from the spec (§4.5 output reader), for comparison with the
code: byte `i` of the extended output is byte `i % 64` of the little-
endian serialization of the recompression of the root input with counter
`i / 64` — successive 64-byte output blocks, concatenated and truncated
to `n`. -/
def xofBytes (cv block : List Nat) (blockLen flags n : Nat) : List Nat :=
  (List.range n).map (fun i =>
    ((idx (optCompress cv block (i / 64) blockLen flags) ((i % 64) / 4))
      >>> ((i % 4) * 8)) % 256)

/-- Number of set bits in the binary representation. -/
def popcount (n : Nat) : Nat :=
  if n = 0 then 0 else n % 2 + popcount (n / 2)
decreasing_by exact Nat.div_lt_self (Nat.pos_of_ne_zero (by assumption)) one_lt_two

/-- The chaining value of the complete, balanced subtree over a
power-of-two run of leaf CVs: a single leaf is its own CV; otherwise the
parent compression of the two half-subtrees. -/
def subtreeCv (flags : Nat) (keyCv : List Nat) (leaves : List (List Nat)) : List Nat :=
  if h : leaves.length ≤ 1 then leaves.headD []
  else
    parentCv (subtreeCv flags keyCv (leaves.take (leaves.length / 2)))
      (subtreeCv flags keyCv (leaves.drop (leaves.length / 2))) flags keyCv
termination_by leaves.length
decreasing_by
  · simp only [List.length_take]
    omega
  · simp only [List.length_drop]
    omega

/-- The specification stack for `M` leaves, top of stack first: the
lowest set bit of `M` contributes the subtree over the last `2 ^ ctz64 M`
leaves at the top, and so on; the most significant bit of `M` sits at the
base (the end of the list). -/
def stackSpec (flags : Nat) (keyCv : List Nat) (leaves : List (List Nat)) :
    List (List Nat) :=
  if h : leaves.length = 0 then []
  else
    let k := 2 ^ ctz64 leaves.length
    subtreeCv flags keyCv (leaves.drop (leaves.length - k)) ::
      stackSpec flags keyCv (leaves.take (leaves.length - k))
termination_by leaves.length
decreasing_by
  simp only [List.length_take]
  have : 0 < 2 ^ ctz64 leaves.length := Nat.pos_pow_of_pos _ (by omega)
  omega

/-- The incremental tree driver in isolation: push the chunk CVs in order
through `pushCvStack`, with the chunk counter following along. -/
def driveStackGen (flags : Nat) (keyCv : List Nat) (stack : List (List Nat))
    (c : Nat) : List (List Nat) → List (List Nat)
  | [] => stack
  | cv :: rest =>
    driveStackGen flags keyCv (pushCvStack stack cv c flags keyCv) (c + 1) rest

/-- Number of chunks the streaming hasher compresses while feeding `len`
bytes: all but the last chunk-in-progress. -/
def processedChunks (len : Nat) : Nat := if len = 0 then 0 else (len - 1) / 1024

/-- The chunk CVs the streaming hasher pushes while feeding `S` from
counter `c`: the first 1024 bytes are chunk `c`, the next 1024 chunk
`c + 1`, and so on for `k` chunks. -/
def chunkCvsFrom (flags : Nat) (keyCv : List Nat) (S : List Nat) (c : Nat) :
    Nat → List (List Nat)
  | 0 => []
  | k + 1 =>
    processChunk (S.take 1024) c flags keyCv 1024 ::
      chunkCvsFrom flags keyCv (S.drop 1024) (c + 1) k

/-- Following the claim wording (§4.6 `new_derive_key` of the spec), for
comparison with `deriveContextCv`: hash the context bytes through the
streaming hasher with initial CV `IV` and base flags
`DERIVE_KEY_CONTEXT`, and extract the root compression's first eight
words. -/
def specContextCv (context : List Nat) : List Nat :=
  (digestRootState (updateBytes (mkInternal IV DERIVE_KEY_CONTEXT) context)).take 8

/-! ### Lemmas about `update` -/

theorem updateBytes_nil (st : HState) : updateBytes st [] = st := by
  rw [updateBytes]
  simp

theorem updateBytes_small (st : HState) (bytes : List Nat) (hb : st.buf = [])
    (hlen : bytes.length ≤ 1024) :
    updateBytes st bytes = { st with buf := bytes } := by
  rcases eq_or_ne bytes [] with h | h
  · subst h
    rw [updateBytes_nil]
    cases st
    simp_all
  · have h1 : bytes.length ≠ 0 := fun hc => h (List.length_eq_zero.mp hc)
    rw [updateBytes]
    rw [if_neg h, if_neg (by simp [hb])]
    have htc : min (1024 - st.buf.length) bytes.length = bytes.length := by
      simp [hb]
      omega
    rw [htc, if_neg h1]
    simp only [List.take_length, List.drop_length]
    rw [updateBytes_nil, hb]
    simp

theorem updateBytes_chunkStep (st : HState) (bytes : List Nat) (hb : st.buf = [])
    (hlen : 1024 < bytes.length) :
    updateBytes st bytes =
      updateBytes (processAndPush { st with buf := bytes.take 1024 })
        (bytes.drop 1024) := by
  have h : bytes ≠ [] := by
    intro hc
    simp [hc] at hlen
  rw [updateBytes]
  rw [if_neg h, if_neg (by simp [hb])]
  have htc : min (1024 - st.buf.length) bytes.length = 1024 := by
    simp [hb]
    omega
  rw [htc, if_neg (by omega)]
  have hb2 : ({ st with buf := st.buf ++ bytes.take 1024 } : HState).buf.length = 1024 := by
    simp [hb]
    omega
  have hd : bytes.drop 1024 ≠ [] := by
    intro hc
    have := congrArg List.length hc
    simp at this
    omega
  rw [updateBytes]
  rw [if_neg hd, if_pos hb2]
  simp [hb]

/-! ### Lemmas about the merge loops -/

theorem mergeGuard_false (flags : Nat) (kc : List Nat) :
    ∀ (n : Nat) (s : List (List Nat)),
      mergeGuard false flags kc n s = mergeN flags kc n s := by
  intro n
  induction n with
  | zero => intro s; rfl
  | succ n ih =>
    intro s
    match s with
    | [] => rfl
    | [x] => rfl
    | r :: l :: rest =>
      simp only [mergeGuard, mergeN]
      rw [if_neg (by simp)]
      exact ih _

theorem mergeWhileGT2_two (flags : Nat) (kc : List Nat) (a b : List Nat) :
    mergeWhileGT2 flags kc [a, b] = [a, b] := rfl

theorem mergeWhileGT2_cons3 (flags : Nat) (kc : List Nat) (r l c : List Nat)
    (rest : List (List Nat)) :
    mergeWhileGT2 flags kc (r :: l :: c :: rest) =
      mergeWhileGT2 flags kc (parentCv l r flags kc :: c :: rest) := rfl

theorem mergeWhileGT2_of_guard (flags : Nat) (kc : List Nat) :
    ∀ (n : Nat) (s : List (List Nat)),
      mergeWhileGT2 flags kc (mergeGuard true flags kc n s) =
        mergeWhileGT2 flags kc s := by
  intro n
  induction n with
  | zero => intro s; rfl
  | succ n ih =>
    intro s
    match s with
    | [] => rfl
    | [x] => rfl
    | [r, l] =>
      simp [mergeGuard]
    | r :: l :: c :: rest =>
      simp only [mergeGuard]
      rw [if_neg (by simp)]
      rw [ih, mergeWhileGT2_cons3]

theorem mergeWhileGT2_length (flags : Nat) (kc : List Nat) :
    ∀ (n : Nat) (s : List (List Nat)), s.length ≤ n → 2 ≤ s.length →
      (mergeWhileGT2 flags kc s).length = 2 := by
  intro n
  induction n with
  | zero =>
    intro s h1 h2
    omega
  | succ n ih =>
    intro s h1 h2
    match s with
    | [r, l] => rw [mergeWhileGT2_two]; rfl
    | r :: l :: c :: rest =>
      rw [mergeWhileGT2_cons3]
      refine ih _ (by simp at h1 ⊢; omega) (by simp)

theorem mergeN_ne_nil (flags : Nat) (kc : List Nat) :
    ∀ (n : Nat) (s : List (List Nat)), s ≠ [] → mergeN flags kc n s ≠ [] := by
  intro n
  induction n with
  | zero => intro s hs; exact hs
  | succ n ih =>
    intro s hs
    match s with
    | [x] => simp [mergeN]
    | r :: l :: rest =>
      simp only [mergeN]
      exact ih _ (by simp)

theorem driveStackGen_ne_nil (flags : Nat) (kc : List Nat) :
    ∀ (cvs : List (List Nat)) (stack : List (List Nat)) (c : Nat),
      cvs ≠ [] ∨ stack ≠ [] → driveStackGen flags kc stack c cvs ≠ [] := by
  intro cvs
  induction cvs with
  | nil =>
    intro stack c h
    rcases h with h | h
    · exact absurd rfl h
    · exact h
  | cons cv rest ih =>
    intro stack c _
    simp only [driveStackGen]
    refine ih _ _ (Or.inr ?_)
    exact mergeN_ne_nil flags kc _ _ (by simp)

/-! ### Lemmas relating the one-shot chunk loop to the incremental driver -/

theorem chainingValueOpt_chunk (chunk : List Nat) (c flags : Nat)
    (h : chunk.length = 1024) :
    chainingValueOpt chunk c flags = processChunk chunk c flags IV 1024 := by
  simp only [chainingValueOpt, h]

theorem optLoop_noGuard (input : List Nat) (total : Nat)
    (htot : input.length / 1024 < total) :
    ∀ (n c : Nat) (stack : List (List Nat)), input.length / 1024 - c ≤ n →
      optLoop input total c stack =
        driveStackGen 0 IV stack c
          (chunkCvsFrom 0 IV (input.drop (1024 * c)) c (input.length / 1024 - c)) := by
  intro n
  induction n with
  | zero =>
    intro c stack hn
    rw [optLoop, if_neg (by omega)]
    rw [show input.length / 1024 - c = 0 by omega]
    rfl
  | succ n ih =>
    intro c stack hn
    rcases le_or_lt (input.length / 1024) c with hc | hc
    · rw [optLoop, if_neg (by omega)]
      rw [show input.length / 1024 - c = 0 by omega]
      rfl
    · rw [optLoop, if_pos (by omega)]
      rw [decide_eq_false (by omega : ¬ c + 1 = total)]
      rw [mergeGuard_false]
      have hch : ((input.drop (1024 * c)).take 1024).length = 1024 := by
        simp
        omega
      rw [ih (c + 1) _ (by omega)]
      rw [show input.length / 1024 - c = (input.length / 1024 - (c + 1)) + 1 by omega]
      simp only [chunkCvsFrom, driveStackGen]
      rw [List.drop_drop]
      rw [show 1024 * c + 1024 = 1024 * (c + 1) by ring]
      rw [chainingValueOpt_chunk _ _ _ hch]
      rfl

theorem optLoop_lastGuard (input : List Nat) (total : Nat)
    (hmul : input.length = 1024 * total) (htot : 1 ≤ total) :
    ∀ (n c : Nat) (stack : List (List Nat)), total - c ≤ n + 1 → c < total →
      optLoop input total c stack =
        mergeGuard true 0 IV (ctz64 total)
          (chainingValueOpt ((input.drop (1024 * (total - 1))).take 1024) (total - 1) 0 ::
            driveStackGen 0 IV stack c
              (chunkCvsFrom 0 IV (input.drop (1024 * c)) c (total - 1 - c))) := by
  intro n
  induction n with
  | zero =>
    intro c stack hn hc
    have hceq : c = total - 1 := by omega
    subst hceq
    rw [optLoop, if_pos (by omega)]
    rw [show total - 1 + 1 = total by omega, decide_eq_true rfl]
    rw [optLoop, if_neg (by omega)]
    rw [show total - 1 - (total - 1) = 0 by omega]
    rfl
  | succ n ih =>
    intro c stack hn hc
    rcases eq_or_lt_of_le (by omega : c + 1 ≤ total) with hceq | hclt
    · have hceq2 : c = total - 1 := by omega
      subst hceq2
      rw [optLoop, if_pos (by omega)]
      rw [show total - 1 + 1 = total by omega, decide_eq_true rfl]
      rw [optLoop, if_neg (by omega)]
      rw [show total - 1 - (total - 1) = 0 by omega]
      rfl
    · rw [optLoop, if_pos (by omega)]
      rw [decide_eq_false (by omega : ¬ c + 1 = total)]
      rw [mergeGuard_false]
      have hch : ((input.drop (1024 * c)).take 1024).length = 1024 := by
        simp
        omega
      rw [ih (c + 1) _ (by omega) (by omega)]
      rw [show total - 1 - c = (total - 1 - (c + 1)) + 1 by omega]
      simp only [chunkCvsFrom, driveStackGen]
      rw [List.drop_drop]
      rw [show 1024 * c + 1024 = 1024 * (c + 1) by ring]
      rw [chainingValueOpt_chunk _ _ _ hch]
      rfl

theorem updateBytes_flushStep (st : HState) (bytes : List Nat) (h : bytes ≠ [])
    (hb : st.buf.length = 1024) :
    updateBytes st bytes = updateBytes (processAndPush st) bytes := by
  rw [updateBytes, if_neg h, if_pos hb]

theorem updateBytes_copyStep (st : HState) (bytes : List Nat) (h : bytes ≠ [])
    (hlt : st.buf.length < 1024) :
    updateBytes st bytes =
      updateBytes
        { st with buf := st.buf ++ bytes.take (min (1024 - st.buf.length) bytes.length) }
        (bytes.drop (min (1024 - st.buf.length) bytes.length)) := by
  rw [updateBytes, if_neg h, if_neg (by omega)]
  have hlen : bytes.length ≠ 0 := fun hc => h (List.length_eq_zero.mp hc)
  rw [if_neg (by omega)]

theorem updateBytes_stuck (st : HState) (bytes : List Nat)
    (h : 1024 < st.buf.length) : updateBytes st bytes = st := by
  rcases eq_or_ne bytes [] with hb | hb
  · subst hb
    exact updateBytes_nil st
  · rw [updateBytes, if_neg hb, if_neg (by omega)]
    rw [show min (1024 - st.buf.length) bytes.length = 0 by omega]
    simp

theorem updateBytes_append : ∀ (n : Nat) (a : List Nat) (st : HState) (b : List Nat),
    a.length * 2 + (if st.buf.length = 1024 then 1 else 0) ≤ n →
    updateBytes st (a ++ b) = updateBytes (updateBytes st a) b := by
  intro n
  induction n with
  | zero =>
    intro a st b hn
    have ha : a = [] := List.length_eq_zero.mp (by omega)
    subst ha
    rw [List.nil_append, updateBytes_nil]
  | succ n ih =>
    intro a st b hn
    rcases eq_or_ne a [] with ha | ha
    · subst ha
      rw [List.nil_append, updateBytes_nil]
    rcases eq_or_ne b [] with hbb | hbb
    · subst hbb
      rw [List.append_nil, updateBytes_nil]
    have hab : a ++ b ≠ [] := by simp [ha]
    rcases lt_trichotomy st.buf.length 1024 with hlt | heq | hgt
    · -- copy branch
      have halen : a.length ≠ 0 := fun hc => ha (List.length_eq_zero.mp hc)
      set room := 1024 - st.buf.length with hroom
      have hroom1 : 1 ≤ room := by omega
      rcases le_or_lt room a.length with hra | hra
      · -- the copied bytes come from `a` alone
        have htcab : min room (a ++ b).length = room := by
          simp
          omega
        have htca : min room a.length = room := by omega
        rw [updateBytes_copyStep st (a ++ b) hab hlt,
          updateBytes_copyStep st a ha hlt]
        rw [← hroom, htcab, htca]
        rw [List.take_append_eq_append_take, List.drop_append_eq_append_drop]
        rw [show room - a.length = 0 by omega]
        simp only [List.take_zero, List.append_nil, List.drop_zero]
        rw [if_neg (by omega : ¬ st.buf.length = 1024)] at hn
        exact ih (a.drop room) _ b (by
          simp only [List.length_drop]
          split <;> omega)
      · -- all of `a` is copied; the combined call keeps copying from `b`
        have htca : min room a.length = a.length := by omega
        set j := min (room - a.length) b.length with hj
        have htcab : min room (a ++ b).length = a.length + j := by
          simp only [List.length_append]
          omega
        rw [updateBytes_copyStep st (a ++ b) hab hlt,
          updateBytes_copyStep st a ha hlt]
        rw [← hroom, htcab, htca]
        simp only [List.take_length, List.drop_length]
        rw [updateBytes_nil]
        have hbuf2 : ({ st with buf := st.buf ++ a } : HState).buf.length < 1024 := by
          simp
          omega
        rw [updateBytes_copyStep _ b hbb hbuf2]
        have hroomj : min (1024 - ({ st with buf := st.buf ++ a } : HState).buf.length)
            b.length = j := by
          simp
          omega
        rw [hroomj]
        have htake : (a ++ b).take (a.length + j) = a ++ b.take j := by
          rw [List.take_append_eq_append_take]
          rw [List.take_of_length_le (by omega)]
          congr 2
          omega
        have hdrop : (a ++ b).drop (a.length + j) = b.drop j := by
          rw [List.drop_append_eq_append_drop]
          rw [List.drop_of_length_le (by omega)]
          simp only [List.nil_append]
          congr 1
          omega
        rw [htake, hdrop, List.append_assoc]
    · -- full buffer: flush first
      rw [updateBytes_flushStep st (a ++ b) hab heq,
        updateBytes_flushStep st a ha heq]
      rw [if_pos heq] at hn
      refine ih a _ b ?_
      have h0 : (processAndPush st).buf.length = 0 := rfl
      rw [h0, if_neg (by omega : ¬ (0 : Nat) = 1024)]
      omega
    · -- degenerate oversized buffer: everything is a no-op
      rw [updateBytes_stuck st (a ++ b) hgt, updateBytes_stuck st a hgt,
        updateBytes_stuck st b hgt]

theorem updateBytes_feed : ∀ (n : Nat) (S : List Nat) (st : HState),
    S.length ≤ n → st.buf = [] →
    updateBytes st S =
      ⟨st.cv, S.drop (1024 * processedChunks S.length),
       st.chunkCounter + processedChunks S.length,
       driveStackGen st.flags st.cv st.cvStack st.chunkCounter
         (chunkCvsFrom st.flags st.cv S st.chunkCounter (processedChunks S.length)),
       st.flags⟩ := by
  intro n
  induction n with
  | zero =>
    intro S st hS hb
    have : S = [] := List.length_eq_zero.mp (by omega)
    subst this
    rw [updateBytes_nil]
    cases st
    simp_all [processedChunks, chunkCvsFrom, driveStackGen]
  | succ n ih =>
    intro S st hS hb
    rcases le_or_lt S.length 1024 with hle | hgt
    · rw [updateBytes_small st S hb hle]
      have hK : processedChunks S.length = 0 := by
        simp [processedChunks]
        intro
        omega
      cases st
      simp_all [chunkCvsFrom, driveStackGen]
    · rw [updateBytes_chunkStep st S hb hgt]
      have hdl : (S.drop 1024).length ≤ n := by
        simp
        omega
      have hbuf : (processAndPush { st with buf := S.take 1024 }).buf = [] := rfl
      rw [ih (S.drop 1024) _ hdl hbuf]
      have hlt : (S.take 1024).length = 1024 := by
        simp
        omega
      have hK : processedChunks S.length = processedChunks (S.drop 1024).length + 1 := by
        simp only [processedChunks, List.length_drop]
        rw [if_neg (by omega), if_neg (by omega)]
        omega
      simp only [processAndPush, hlt, hK, chunkCvsFrom]
      simp only [driveStackGen]
      rw [List.drop_drop]
      have e1 : 1024 + 1024 * processedChunks (S.drop 1024).length =
          1024 * (processedChunks (S.drop 1024).length + 1) := by ring
      have e2 : st.chunkCounter + 1 + processedChunks (S.drop 1024).length =
          st.chunkCounter + (processedChunks (S.drop 1024).length + 1) := by omega
      rw [e1, e2]

/-! ### Streaming/one-shot equivalence -/

theorem foldl_updateBytes : ∀ (parts : List (List Nat)) (st : HState),
    List.foldl updateBytes st parts = updateBytes st parts.flatten := by
  intro parts
  induction parts with
  | nil =>
    intro st
    simp only [List.foldl_nil, List.flatten_nil]
    exact (updateBytes_nil st).symm
  | cons p ps ih =>
    intro st
    rw [List.foldl_cons, ih, List.flatten_cons]
    exact (updateBytes_append (p.length * 2 + 1) p st ps.flatten (by split <;> omega)).symm

theorem updateBytes_feed_init (S : List Nat) :
    updateBytes initHasher S =
      ⟨IV, S.drop (1024 * processedChunks S.length), processedChunks S.length,
       driveStackGen 0 IV [] 0 (chunkCvsFrom 0 IV S 0 (processedChunks S.length)),
       0⟩ := by
  rw [updateBytes_feed S.length S initHasher le_rfl rfl]
  simp [initHasher]

theorem digestBytes_single (cv buf : List Nat) (stk : List (List Nat))
    (flags n : Nat) (hstk : stk = []) :
    digestBytes ⟨cv, buf, 0, stk, flags⟩ n =
      wordsToOutput (singleChunkRootState buf buf.length flags cv) n := by
  subst hstk
  rw [digestBytes]
  congr 1

theorem digestBytes_multi (cv buf : List Nat) (cc : Nat) (stk : List (List Nat))
    (flags : Nat) (hc : ¬ (cc = 0 ∧ stk = [])) (r l : List Nat)
    (hmerge : mergeWhileGT2 flags cv
      (processChunk buf cc flags cv buf.length :: stk) = [r, l]) (n : Nat) :
    digestBytes ⟨cv, buf, cc, stk, flags⟩ n =
      wordsToOutput
        (optCompress cv (parentBlockBytes l r) 0 64
          (Nat.lor (Nat.lor flags PARENT) ROOT)) n := by
  rw [digestBytes]
  congr 1
  unfold digestRootState
  rw [if_neg hc]
  simp only
  rw [hmerge]

theorem digest_update_eq_optHash (S : List Nat) (n : Nat) :
    digestBytes (updateBytes initHasher S) n = optHash S n := by
  rw [updateBytes_feed_init]
  rcases le_or_lt S.length 1024 with hle | hgt
  · -- at most one chunk: both sides run the single-chunk root loop
    have hK : processedChunks S.length = 0 := by
      simp only [processedChunks]
      split <;> omega
    rw [hK]
    simp only [Nat.mul_zero, List.drop_zero, chunkCvsFrom, driveStackGen]
    rw [digestBytes_single _ _ _ _ n rfl]
    rcases eq_or_ne S [] with rfl | hS
    · unfold optHash
      rw [if_pos (show ([] : List Nat).length = 0 from rfl)]
      congr 1
    · have hne0 : S.length ≠ 0 := fun hc => hS (List.length_eq_zero.mp hc)
      unfold optHash
      rw [if_neg hne0, if_pos hle]
  · -- more than one chunk
    have hK1 : 1 ≤ processedChunks S.length := by
      simp only [processedChunks]
      rw [if_neg (by omega)]
      omega
    have hKval : processedChunks S.length = (S.length - 1) / 1024 := by
      simp only [processedChunks]
      rw [if_neg (by omega)]
    set K := processedChunks S.length with hKdef
    set stackD := driveStackGen 0 IV [] 0 (chunkCvsFrom 0 IV S 0 K) with hstackD
    have hstackD_ne : stackD ≠ [] := by
      rw [hstackD, show K = (K - 1) + 1 by omega]
      refine driveStackGen_ne_nil 0 IV _ _ _ (Or.inl ?_)
      simp [chunkCvsFrom]
    set buf := S.drop (1024 * K) with hbuf
    set cvL := processChunk buf K 0 IV buf.length with hcvL
    have hmlen : (mergeWhileGT2 0 IV (cvL :: stackD)).length = 2 := by
      refine mergeWhileGT2_length 0 IV (cvL :: stackD).length _ le_rfl ?_
      rcases stackD with _ | ⟨x, xs⟩
      · exact absurd rfl hstackD_ne
      · simp
    obtain ⟨r, l, hmerge⟩ : ∃ r l, mergeWhileGT2 0 IV (cvL :: stackD) = [r, l] := by
      rcases hm : mergeWhileGT2 0 IV (cvL :: stackD) with _ | ⟨a, _ | ⟨b, _ | _⟩⟩ <;>
        rw [hm] at hmlen <;> simp at hmlen
      exact ⟨a, b, rfl⟩
    rw [digestBytes_multi IV buf K stackD 0 (by
        intro hc
        omega) r l hmerge n]
    have hflags : Nat.lor (Nat.lor 0 PARENT) ROOT = Nat.lor PARENT ROOT := by decide
    rw [hflags]
    unfold optHash optHashMulti
    rw [if_neg (by omega), if_neg (by omega)]
    simp only
    rcases Nat.eq_zero_or_pos (S.length % 1024) with hrem | hrem
    · -- exact multiple of the chunk size: the guarded last merge on the way out
      have htotal : ceilDiv S.length 1024 = S.length / 1024 := by
        simp only [ceilDiv]
        omega
      have hKfl : S.length / 1024 - 1 = K := by omega
      have hmul : S.length = 1024 * (S.length / 1024) := by omega
      rw [htotal]
      rw [optLoop_lastGuard S (S.length / 1024) hmul (by omega)
        (S.length / 1024) 0 [] (by omega) (by omega)]
      rw [if_neg (by omega)]
      have htk : (S.drop (1024 * (S.length / 1024 - 1))).take 1024 =
          S.drop (1024 * (S.length / 1024 - 1)) := by
        refine List.take_of_length_le ?_
        simp
        omega
      rw [htk, hKfl]
      rw [show chainingValueOpt (S.drop (1024 * K)) K 0 = cvL from rfl]
      rw [show chunkCvsFrom 0 IV (S.drop (1024 * 0)) 0 (K - 0) =
        chunkCvsFrom 0 IV S 0 K by simp]
      rw [← hstackD, mergeWhileGT2_of_guard, hmerge]
    · -- trailing partial chunk
      have htotal : ceilDiv S.length 1024 = S.length / 1024 + 1 := by
        simp only [ceilDiv]
        omega
      have hKfl : S.length / 1024 = K := by omega
      rw [htotal]
      rw [optLoop_noGuard S (S.length / 1024 + 1) (by omega)
        (S.length / 1024) 0 [] (by omega)]
      rw [if_pos (by omega)]
      rw [hKfl]
      rw [show chainingValueOpt (S.drop (1024 * K)) K 0 = cvL from rfl]
      rw [show chunkCvsFrom 0 IV (S.drop (1024 * 0)) 0 (K - 0) =
        chunkCvsFrom 0 IV S 0 K by simp]
      rw [← hstackD, hmerge]


/-! ### The binary-counter invariant of the subtree stack -/

theorem ctzAux_fuel_irrel : ∀ (x f1 f2 : Nat), 0 < x → x ≤ f1 → x ≤ f2 →
    ctzAux f1 x = ctzAux f2 x := by
  intro x
  induction x using Nat.strong_induction_on with
  | _ x ih =>
    intro f1 f2 hx h1 h2
    obtain ⟨g1, rfl⟩ : ∃ g1, f1 = g1 + 1 := ⟨f1 - 1, by omega⟩
    obtain ⟨g2, rfl⟩ : ∃ g2, f2 = g2 + 1 := ⟨f2 - 1, by omega⟩
    simp only [ctzAux]
    rcases Nat.even_or_odd x with he | ho
    · have h0 : ¬ x % 2 = 1 := by
        have := Nat.even_iff.mp he
        omega
      rw [if_neg h0, if_neg h0]
      rw [ih (x / 2) (by omega) g1 g2 (by omega) (by omega) (by omega)]
    · rw [if_pos (Nat.odd_iff.mp ho), if_pos (Nat.odd_iff.mp ho)]

theorem ctz64_odd (n : Nat) (h : n % 2 = 1) : ctz64 n = 0 := by
  rw [ctz64, if_neg (by omega)]
  obtain ⟨g, rfl⟩ : ∃ g, n = g + 1 := ⟨n - 1, by omega⟩
  simp only [ctzAux]
  rw [if_pos h]

theorem ctz64_even (n : Nat) (h0 : n ≠ 0) (h : n % 2 = 0) :
    ctz64 n = 1 + ctz64 (n / 2) := by
  have hn2 : n / 2 ≠ 0 := by omega
  rw [ctz64, if_neg h0, ctz64, if_neg hn2]
  obtain ⟨g, hg⟩ : ∃ g, n = g + 1 := ⟨n - 1, by omega⟩
  rw [hg]
  simp only [ctzAux]
  rw [if_neg (by omega)]
  rw [ctzAux_fuel_irrel ((g + 1) / 2) g ((g + 1) / 2) (by omega) (by omega) le_rfl]

theorem ctz64_two_pow_mul (k q : Nat) (hq : q % 2 = 1) :
    ctz64 (2 ^ k * q) = k := by
  induction k with
  | zero =>
    simpa using ctz64_odd q hq
  | succ k ih =>
    have hp : 0 < 2 ^ k := Nat.pos_pow_of_pos _ (by omega)
    have hne : 2 ^ (k + 1) * q ≠ 0 := by
      have : 0 < 2 ^ (k + 1) * q := Nat.mul_pos (Nat.pos_pow_of_pos _ (by omega)) (by omega)
      omega
    have hsplit : 2 ^ (k + 1) * q = 2 * (2 ^ k * q) := by
      rw [pow_succ]
      ring
    have heven : 2 ^ (k + 1) * q % 2 = 0 := by
      rw [hsplit]
      omega
    rw [ctz64_even _ hne heven, hsplit, Nat.mul_div_cancel_left _ (by omega : (0:Nat) < 2)]
    rw [ih]
    omega

theorem popcount_nonzero (n : Nat) (h : n ≠ 0) :
    popcount n = n % 2 + popcount (n / 2) := by
  rw [popcount, if_neg h]

theorem popcount_zero : popcount 0 = 0 := by
  rw [popcount, if_pos rfl]

theorem popcount_two_mul (m : Nat) : popcount (2 * m) = popcount m := by
  rcases eq_or_ne m 0 with rfl | hm
  · rfl
  · rw [popcount_nonzero (2 * m) (by omega)]
    rw [show 2 * m % 2 = 0 by omega, show 2 * m / 2 = m by omega]
    omega

theorem pow_ctz64_dvd (n : Nat) : 0 < n → 2 ^ ctz64 n ∣ n := by
  induction n using Nat.strong_induction_on with
  | _ n ih =>
    intro hn
    rcases Nat.even_or_odd n with he | ho
    · have h2 : n % 2 = 0 := Nat.even_iff.mp he
      rw [ctz64_even n (by omega) h2, pow_add, pow_one]
      obtain ⟨d, hd⟩ := ih (n / 2) (by omega) (by omega)
      refine ⟨d, ?_⟩
      have hn2 : n = 2 * (n / 2) := by omega
      conv_lhs => rw [hn2, hd]
      ring
    · rw [ctz64_odd n (Nat.odd_iff.mp ho), pow_zero]
      exact one_dvd n

theorem popcount_sub_pow_ctz (n : Nat) : 0 < n →
    popcount (n - 2 ^ ctz64 n) + 1 = popcount n := by
  induction n using Nat.strong_induction_on with
  | _ n ih =>
    intro hn
    rcases Nat.even_or_odd n with he | ho
    · have h2 : n % 2 = 0 := Nat.even_iff.mp he
      rw [ctz64_even n (by omega) h2, pow_add, pow_one]
      have hd := pow_ctz64_dvd (n / 2) (by omega)
      have hle : 2 ^ ctz64 (n / 2) ≤ n / 2 := Nat.le_of_dvd (by omega) hd
      have hsplit : n - 2 * 2 ^ ctz64 (n / 2) = 2 * (n / 2 - 2 ^ ctz64 (n / 2)) := by
        omega
      rw [hsplit, popcount_two_mul, ih (n / 2) (by omega) (by omega)]
      have : popcount n = popcount (n / 2) := by
        rw [popcount_nonzero n (by omega), h2]
        omega
      omega
    · have h2 : n % 2 = 1 := Nat.odd_iff.mp ho
      rw [ctz64_odd n h2, pow_zero]
      rcases eq_or_ne n 1 with rfl | hne1
      · rw [popcount_nonzero 1 one_ne_zero]
        show popcount 0 + 1 = 1 % 2 + popcount 0
        omega
      · rw [popcount_nonzero (n - 1) (by omega)]
        rw [show (n - 1) % 2 = 0 by omega, show (n - 1) / 2 = n / 2 by omega]
        rw [popcount_nonzero n (by omega), h2]
        omega

theorem mergeN_zero (flags : Nat) (kc : List Nat) (s : List (List Nat)) :
    mergeN flags kc 0 s = s := rfl

theorem mergeN_succ_cons (flags : Nat) (kc : List Nat) (n : Nat)
    (r l : List Nat) (rest : List (List Nat)) :
    mergeN flags kc (n + 1) (r :: l :: rest) =
      mergeN flags kc n (parentCv l r flags kc :: rest) := rfl

theorem subtreeCv_single (flags : Nat) (kc x : List Nat) :
    subtreeCv flags kc [x] = x := by
  rw [subtreeCv]
  simp

theorem subtreeCv_append (flags : Nat) (kc : List Nat) (Y X : List (List Nat))
    (k : Nat) (hY : Y.length = 2 ^ k) (hX : X.length = 2 ^ k) :
    subtreeCv flags kc (Y ++ X) =
      parentCv (subtreeCv flags kc Y) (subtreeCv flags kc X) flags kc := by
  have hp : 0 < 2 ^ k := Nat.pos_pow_of_pos _ (by omega)
  have hlen : (Y ++ X).length = 2 ^ k + 2 ^ k := by simp [hY, hX]
  rw [subtreeCv, dif_neg (by omega)]
  have hhalf : (Y ++ X).length / 2 = 2 ^ k := by omega
  rw [hhalf]
  rw [show (2 : Nat) ^ k = Y.length from hY.symm, List.take_left, List.drop_left]

theorem stackSpec_nil (flags : Nat) (kc : List Nat) :
    stackSpec flags kc [] = [] := by
  rw [stackSpec]
  simp

theorem stackSpec_cons (flags : Nat) (kc : List Nat) (L : List (List Nat))
    (h : L.length ≠ 0) :
    stackSpec flags kc L =
      subtreeCv flags kc (L.drop (L.length - 2 ^ ctz64 L.length)) ::
        stackSpec flags kc (L.take (L.length - 2 ^ ctz64 L.length)) := by
  rw [stackSpec, dif_neg h]

theorem mergeCarry (flags : Nat) (kc : List Nat) :
    ∀ (n : Nat) (L X : List (List Nat)) (k : Nat),
      L.length ≤ n → X.length = 2 ^ k → 2 ^ k ∣ L.length →
      mergeN flags kc (ctz64 (L.length / 2 ^ k + 1))
        (subtreeCv flags kc X :: stackSpec flags kc L) =
      stackSpec flags kc (L ++ X) := by
  intro n
  induction n using Nat.strong_induction_on with
  | _ n ihn =>
  intro L X k hLn hX hdvd
  have hp : 0 < 2 ^ k := Nat.pos_pow_of_pos _ (by omega)
  obtain ⟨q, hq⟩ := hdvd
  have hdivq : L.length / 2 ^ k = q := by
    rw [hq]
    exact Nat.mul_div_cancel_left _ hp
  rcases Nat.even_or_odd q with hqe | hqo
  · -- no merge is due: the new subtree just sits on top
    have hq2 : q % 2 = 0 := Nat.even_iff.mp hqe
    rw [hdivq, ctz64_odd (q + 1) (by omega), mergeN_zero]
    have hlapp : (L ++ X).length = 2 ^ k * (q + 1) := by
      simp [hq, hX, Nat.mul_succ]
    have hne : (L ++ X).length ≠ 0 := by
      have : 0 < 2 ^ k * (q + 1) := Nat.mul_pos hp (by omega)
      omega
    rw [stackSpec_cons flags kc (L ++ X) hne, hlapp,
      ctz64_two_pow_mul k (q + 1) (by omega)]
    have hsub : 2 ^ k * (q + 1) - 2 ^ k = L.length := by
      have : 2 ^ k * (q + 1) = L.length + 2 ^ k := by
        rw [hq, Nat.mul_succ]
      omega
    rw [hsub, List.drop_left, List.take_left]
  · -- a merge is due: the top two subtrees combine and carry
    obtain ⟨m2, hm2⟩ : ∃ m2, q = 2 * m2 + 1 := ⟨q / 2, by
      have := Nat.odd_iff.mp hqo
      omega⟩
    subst hm2
    have hCB : 2 ^ k * (2 * m2 + 1) = 2 ^ k * (2 * m2) + 2 ^ k := by ring
    have hLpos : 0 < L.length := by
      rw [hq]
      exact Nat.mul_pos hp (by omega)
    rw [stackSpec_cons flags kc L (by omega), hq,
      ctz64_two_pow_mul k (2 * m2 + 1) (by omega)]
    have hsub : 2 ^ k * (2 * m2 + 1) - 2 ^ k = 2 ^ k * (2 * m2) := by
      have : 2 ^ k * (2 * m2 + 1) = 2 ^ k * (2 * m2) + 2 ^ k := by
        rw [Nat.mul_succ]
      omega
    rw [← hq, show L.length - 2 ^ k = 2 ^ k * (2 * m2) by omega]
    set Y := L.drop (2 ^ k * (2 * m2)) with hYdef
    set L0 := L.take (2 ^ k * (2 * m2)) with hL0def
    have hYlen : Y.length = 2 ^ k := by
      rw [hYdef]
      simp only [List.length_drop]
      omega
    have hL0len : L0.length = 2 ^ k * (2 * m2) := by
      rw [hL0def]
      simp only [List.length_take]
      omega
    rw [hdivq, ctz64_even (2 * m2 + 1 + 1) (by omega) (by omega),
      Nat.add_comm 1 (ctz64 ((2 * m2 + 1 + 1) / 2)), mergeN_succ_cons]
    rw [← subtreeCv_append flags kc Y X k hYlen hX]
    have harg : (2 * m2 + 1 + 1) / 2 = L0.length / 2 ^ (k + 1) + 1 := by
      have h1 : L0.length / 2 ^ (k + 1) = m2 := by
        rw [hL0len, pow_succ]
        rw [show 2 ^ k * (2 * m2) = 2 ^ k * 2 * m2 by ring]
        exact Nat.mul_div_cancel_left _ (by positivity)
      omega
    rw [harg]
    rw [ihn L0.length (by omega) L0 (Y ++ X) (k + 1) le_rfl
      (by simp [hYlen, hX, pow_succ]; ring) (by
        refine ⟨m2, ?_⟩
        rw [hL0len, pow_succ]
        ring)]
    rw [← List.append_assoc, hL0def, hYdef, List.take_append_drop]

theorem driveStackGen_stackSpec (flags : Nat) (kc : List Nat) :
    ∀ (rest pre : List (List Nat)),
      driveStackGen flags kc (stackSpec flags kc pre) pre.length rest =
        stackSpec flags kc (pre ++ rest) := by
  intro rest
  induction rest with
  | nil =>
    intro pre
    simp only [driveStackGen, List.append_nil]
  | cons cv rest ih =>
    intro pre
    simp only [driveStackGen]
    have h := mergeCarry flags kc pre.length pre [cv] 0 le_rfl (by simp) (by simp)
    rw [subtreeCv_single, pow_zero, Nat.div_one] at h
    have hpush : pushCvStack (stackSpec flags kc pre) cv pre.length flags kc =
        stackSpec flags kc (pre ++ [cv]) := h
    rw [hpush]
    have h2 := ih (pre ++ [cv])
    rw [List.length_append, List.length_singleton] at h2
    rw [h2, List.append_assoc, List.singleton_append]

theorem stackSpec_length (flags : Nat) (kc : List Nat) :
    ∀ (n : Nat) (L : List (List Nat)), L.length ≤ n →
      (stackSpec flags kc L).length = popcount L.length := by
  intro n
  induction n with
  | zero =>
    intro L h
    have : L = [] := List.length_eq_zero.mp (by omega)
    subst this
    rw [stackSpec_nil]
    simp [popcount_zero]
  | succ n ih =>
    intro L h
    rcases eq_or_ne L.length 0 with h0 | h0
    · have : L = [] := List.length_eq_zero.mp h0
      subst this
      rw [stackSpec_nil]
      simp [popcount_zero]
    · rw [stackSpec_cons flags kc L h0]
      have hd := pow_ctz64_dvd L.length (by omega)
      have hle : 2 ^ ctz64 L.length ≤ L.length := Nat.le_of_dvd (by omega) hd
      have hp : 0 < 2 ^ ctz64 L.length := Nat.pos_pow_of_pos _ (by omega)
      rw [List.length_cons, ih _ (by simp only [List.length_take]; omega)]
      simp only [List.length_take]
      rw [show min (L.length - 2 ^ ctz64 L.length) L.length =
        L.length - 2 ^ ctz64 L.length by omega]
      rw [popcount_sub_pow_ctz L.length (by omega)]

/-- Unrolling a fold over `List.range` from the right. -/
theorem foldl_range_succ (f : List Nat → Nat → List Nat) (n : Nat) (a : List Nat) :
    (List.range (n + 1)).foldl f a = f ((List.range n).foldl f a) n := by
  rw [List.range_succ, List.foldl_append, List.foldl_cons, List.foldl_nil]

/-- `updateBytes_feed` specialized to a fresh internal hasher. -/
theorem updateBytes_feed_mk (cv : List Nat) (fl : Nat) (S : List Nat) :
    updateBytes (mkInternal cv fl) S =
      ⟨cv, S.drop (1024 * processedChunks S.length), processedChunks S.length,
       driveStackGen fl cv [] 0 (chunkCvsFrom fl cv S 0 (processedChunks S.length)),
       fl⟩ := by
  rw [updateBytes_feed S.length S (mkInternal cv fl) le_rfl rfl]
  simp [mkInternal]

set_option maxRecDepth 4000 in
set_option maxHeartbeats 1000000 in
/-- Chaining an all-zero 64-byte block from the key CV with flags
`DERIVE_KEY_CONTEXT | CHUNK_START`. -/
theorem zeroCvStep0 :
    List.take 8 (optCompress IV (padBlock (List.replicate 64 0)) 0 64 33) =
      [282698635, 1446575162, 1510809284, 1453186318, 213388145, 2426478712, 3743184715, 1611717670] := by decide

set_option maxRecDepth 4000 in
set_option maxHeartbeats 1000000 in
/-- Zero-block chaining step 1 (flags `DERIVE_KEY_CONTEXT`). -/
theorem zeroCvStep1 :
    List.take 8 (optCompress [282698635, 1446575162, 1510809284, 1453186318, 213388145, 2426478712, 3743184715, 1611717670] (padBlock (List.replicate 64 0)) 0 64 32) =
      [2484940833, 896761603, 3332018379, 2324415356, 1416034565, 2596778070, 3171229175, 3952399150] := by decide

set_option maxRecDepth 4000 in
set_option maxHeartbeats 1000000 in
/-- Zero-block chaining step 2 (flags `DERIVE_KEY_CONTEXT`). -/
theorem zeroCvStep2 :
    List.take 8 (optCompress [2484940833, 896761603, 3332018379, 2324415356, 1416034565, 2596778070, 3171229175, 3952399150] (padBlock (List.replicate 64 0)) 0 64 32) =
      [205471683, 4274019903, 2680844922, 2227510849, 17259024, 3002919516, 834739744, 3119514161] := by decide

set_option maxRecDepth 4000 in
set_option maxHeartbeats 1000000 in
/-- Zero-block chaining step 3 (flags `DERIVE_KEY_CONTEXT`). -/
theorem zeroCvStep3 :
    List.take 8 (optCompress [205471683, 4274019903, 2680844922, 2227510849, 17259024, 3002919516, 834739744, 3119514161] (padBlock (List.replicate 64 0)) 0 64 32) =
      [3453245143, 3539230777, 2500674551, 4041323196, 2442300086, 2690650351, 1140181792, 1247081840] := by decide

set_option maxRecDepth 4000 in
set_option maxHeartbeats 1000000 in
/-- Zero-block chaining step 4 (flags `DERIVE_KEY_CONTEXT`). -/
theorem zeroCvStep4 :
    List.take 8 (optCompress [3453245143, 3539230777, 2500674551, 4041323196, 2442300086, 2690650351, 1140181792, 1247081840] (padBlock (List.replicate 64 0)) 0 64 32) =
      [2919513842, 3151273810, 3644724256, 3490467350, 3185470525, 2792175714, 2066378806, 1269062982] := by decide

set_option maxRecDepth 4000 in
set_option maxHeartbeats 1000000 in
/-- Zero-block chaining step 5 (flags `DERIVE_KEY_CONTEXT`). -/
theorem zeroCvStep5 :
    List.take 8 (optCompress [2919513842, 3151273810, 3644724256, 3490467350, 3185470525, 2792175714, 2066378806, 1269062982] (padBlock (List.replicate 64 0)) 0 64 32) =
      [3078533543, 1463200454, 556028167, 843251002, 3270407114, 2662967315, 3964778459, 3945134204] := by decide

set_option maxRecDepth 4000 in
set_option maxHeartbeats 1000000 in
/-- Zero-block chaining step 6 (flags `DERIVE_KEY_CONTEXT`). -/
theorem zeroCvStep6 :
    List.take 8 (optCompress [3078533543, 1463200454, 556028167, 843251002, 3270407114, 2662967315, 3964778459, 3945134204] (padBlock (List.replicate 64 0)) 0 64 32) =
      [700088900, 662487259, 163279109, 2573479309, 2838918816, 4060772067, 904859169, 3537614213] := by decide

set_option maxRecDepth 4000 in
set_option maxHeartbeats 1000000 in
/-- Zero-block chaining step 7 (flags `DERIVE_KEY_CONTEXT`). -/
theorem zeroCvStep7 :
    List.take 8 (optCompress [700088900, 662487259, 163279109, 2573479309, 2838918816, 4060772067, 904859169, 3537614213] (padBlock (List.replicate 64 0)) 0 64 32) =
      [1845645138, 3008968581, 485413624, 3060478809, 1882163354, 3688250965, 1427628437, 1064200307] := by decide

set_option maxRecDepth 4000 in
set_option maxHeartbeats 1000000 in
/-- Zero-block chaining step 8 (flags `DERIVE_KEY_CONTEXT`). -/
theorem zeroCvStep8 :
    List.take 8 (optCompress [1845645138, 3008968581, 485413624, 3060478809, 1882163354, 3688250965, 1427628437, 1064200307] (padBlock (List.replicate 64 0)) 0 64 32) =
      [1749524066, 3712892099, 2496752269, 3407308005, 1776606931, 91192270, 1873723509, 2936910629] := by decide

set_option maxRecDepth 4000 in
set_option maxHeartbeats 1000000 in
/-- Zero-block chaining step 9 (flags `DERIVE_KEY_CONTEXT`). -/
theorem zeroCvStep9 :
    List.take 8 (optCompress [1749524066, 3712892099, 2496752269, 3407308005, 1776606931, 91192270, 1873723509, 2936910629] (padBlock (List.replicate 64 0)) 0 64 32) =
      [3110677713, 4101301932, 3593238893, 1187821025, 2530024735, 2048826, 889929522, 4173707556] := by decide

set_option maxRecDepth 4000 in
set_option maxHeartbeats 1000000 in
/-- Zero-block chaining step 10 (flags `DERIVE_KEY_CONTEXT`). -/
theorem zeroCvStep10 :
    List.take 8 (optCompress [3110677713, 4101301932, 3593238893, 1187821025, 2530024735, 2048826, 889929522, 4173707556] (padBlock (List.replicate 64 0)) 0 64 32) =
      [1800285916, 1932903221, 3888050731, 1805773167, 2937017942, 3274301275, 4211593097, 2260452863] := by decide

set_option maxRecDepth 4000 in
set_option maxHeartbeats 1000000 in
/-- Zero-block chaining step 11 (flags `DERIVE_KEY_CONTEXT`). -/
theorem zeroCvStep11 :
    List.take 8 (optCompress [1800285916, 1932903221, 3888050731, 1805773167, 2937017942, 3274301275, 4211593097, 2260452863] (padBlock (List.replicate 64 0)) 0 64 32) =
      [2252213107, 3968719298, 2070000769, 1630775854, 2737731306, 1086373629, 49646904, 2142210743] := by decide

set_option maxRecDepth 4000 in
set_option maxHeartbeats 1000000 in
/-- Zero-block chaining step 12 (flags `DERIVE_KEY_CONTEXT`). -/
theorem zeroCvStep12 :
    List.take 8 (optCompress [2252213107, 3968719298, 2070000769, 1630775854, 2737731306, 1086373629, 49646904, 2142210743] (padBlock (List.replicate 64 0)) 0 64 32) =
      [3519918632, 4287572485, 601483550, 3624704622, 2872715225, 3551511884, 842605174, 1454838807] := by decide

set_option maxRecDepth 4000 in
set_option maxHeartbeats 1000000 in
/-- Zero-block chaining step 13 (flags `DERIVE_KEY_CONTEXT`). -/
theorem zeroCvStep13 :
    List.take 8 (optCompress [3519918632, 4287572485, 601483550, 3624704622, 2872715225, 3551511884, 842605174, 1454838807] (padBlock (List.replicate 64 0)) 0 64 32) =
      [2138183678, 2520674376, 841446534, 1535108248, 1823055108, 668756020, 238357279, 828670246] := by decide

set_option maxRecDepth 4000 in
set_option maxHeartbeats 1000000 in
/-- Zero-block chaining step 14 (flags `DERIVE_KEY_CONTEXT`). -/
theorem zeroCvStep14 :
    List.take 8 (optCompress [2138183678, 2520674376, 841446534, 1535108248, 1823055108, 668756020, 238357279, 828670246] (padBlock (List.replicate 64 0)) 0 64 32) =
      [3579429402, 1086084501, 1364257502, 3295635108, 2647564545, 2230254711, 449486193, 1733049582] := by decide

set_option maxRecDepth 4000 in
set_option maxHeartbeats 1000000 in
/-- Zero-block chaining step 15 (flags `DERIVE_KEY_CONTEXT`), block 15 of
the over-long single chunk of `deriveContextCv`. -/
theorem zeroCvStep15 :
    List.take 8 (optCompress [3579429402, 1086084501, 1364257502, 3295635108, 2647564545, 2230254711, 449486193, 1733049582] (padBlock (List.replicate 64 0)) 0 64 32) =
      [1137842775, 1425020645, 133324017, 400909242, 3378317117, 4176122754, 2887799754, 3271326517] := by decide

set_option maxRecDepth 4000 in
set_option maxHeartbeats 1000000 in
/-- Zero-block chaining step 15 with `DERIVE_KEY_CONTEXT | CHUNK_END`: the
closing block of the first complete chunk in the chunked hash of the same
context. -/
theorem zeroCvStep15End :
    List.take 8 (optCompress [3579429402, 1086084501, 1364257502, 3295635108, 2647564545, 2230254711, 449486193, 1733049582] (padBlock (List.replicate 64 0)) 0 64 34) =
      [2829770813, 1780725824, 2145730289, 4017529969, 1517407347, 689870934, 1261725578, 2100081583] := by decide

set_option maxRecDepth 4000 in
set_option maxHeartbeats 4000000 in
/-- `deriveContextCv` on 1025 zero bytes: the 17 blocks of the over-long
"single chunk", evaluated block by block. -/
theorem deriveContextCv_z1025 :
    deriveContextCv (List.replicate 1025 0) = [1911277178, 1399868020, 4171603859, 2306993390, 3554339955, 3631512193, 1277548478, 939610259] := by
  rw [deriveContextCv, List.length_replicate]
  unfold singleChunkRootState
  set Z := List.replicate 1025 0 with hZ
  rw [show numBlocksFor 1025 = 17 from by decide]
  simp only [show (17:Nat) - 1 = 16 from rfl, show (16:Nat) * 64 = 1024 from rfl]
  rw [show (1024 + 64) ⊓ 1025 - 1024 = 1 from by omega]
  rw [show List.take 1 (List.drop 1024 Z) = List.replicate 1 0 from by
    rw [hZ, List.drop_replicate, List.take_replicate]
    congr 1]
  have hblk : ∀ i : Nat, i ≤ 15 →
      List.take ((i * 64 + 64) ⊓ 1025 - i * 64) (List.drop (i * 64) Z) = List.replicate 64 0 := by
    intro i h
    rw [hZ, List.drop_replicate, List.take_replicate]
    congr 1
    omega
  have hlen : ∀ i : Nat, i ≤ 15 → (i * 64 + 64) ⊓ 1025 - i * 64 = 64 := by
    intro i h
    omega
  have hflag : ∀ i : Nat, i ≠ 0 →
      DERIVE_KEY_CONTEXT.lor (if i = 0 then CHUNK_START else 0) = 32 := by
    intro i h
    rw [if_neg h]
    decide
  rw [foldl_range_succ, foldl_range_succ, foldl_range_succ, foldl_range_succ,
    foldl_range_succ, foldl_range_succ, foldl_range_succ, foldl_range_succ,
    foldl_range_succ, foldl_range_succ, foldl_range_succ, foldl_range_succ,
    foldl_range_succ, foldl_range_succ, foldl_range_succ, foldl_range_succ]
  rw [List.range_zero, List.foldl_nil]
  rw [hblk 0 (by omega), hblk 1 (by omega), hblk 2 (by omega), hblk 3 (by omega), hblk 4 (by omega), hblk 5 (by omega), hblk 6 (by omega), hblk 7 (by omega), hblk 8 (by omega), hblk 9 (by omega), hblk 10 (by omega), hblk 11 (by omega), hblk 12 (by omega), hblk 13 (by omega), hblk 14 (by omega), hblk 15 (by omega)]
  rw [hlen 0 (by omega), hlen 1 (by omega), hlen 2 (by omega), hlen 3 (by omega), hlen 4 (by omega), hlen 5 (by omega), hlen 6 (by omega), hlen 7 (by omega), hlen 8 (by omega), hlen 9 (by omega), hlen 10 (by omega), hlen 11 (by omega), hlen 12 (by omega), hlen 13 (by omega), hlen 14 (by omega), hlen 15 (by omega)]
  rw [hflag 1 (by omega), hflag 2 (by omega), hflag 3 (by omega), hflag 4 (by omega), hflag 5 (by omega), hflag 6 (by omega), hflag 7 (by omega), hflag 8 (by omega), hflag 9 (by omega), hflag 10 (by omega), hflag 11 (by omega), hflag 12 (by omega), hflag 13 (by omega), hflag 14 (by omega), hflag 15 (by omega)]
  rw [show DERIVE_KEY_CONTEXT.lor (if (0:Nat) = 0 then CHUNK_START else 0) = 33 from by decide]
  rw [zeroCvStep0]
  rw [zeroCvStep1]
  rw [zeroCvStep2]
  rw [zeroCvStep3]
  rw [zeroCvStep4]
  rw [zeroCvStep5]
  rw [zeroCvStep6]
  rw [zeroCvStep7]
  rw [zeroCvStep8]
  rw [zeroCvStep9]
  rw [zeroCvStep10]
  rw [zeroCvStep11]
  rw [zeroCvStep12]
  rw [zeroCvStep13]
  rw [zeroCvStep14]
  rw [zeroCvStep15]
  decide

set_option maxRecDepth 4000 in
set_option maxHeartbeats 4000000 in
/-- The chunk CV of a complete zero chunk at counter 0 with base flags
`DERIVE_KEY_CONTEXT`, evaluated block by block. -/
theorem processChunk_zero1024 :
    processChunk (List.replicate 1024 0) 0 DERIVE_KEY_CONTEXT IV 1024 =
      [2829770813, 1780725824, 2145730289, 4017529969, 1517407347, 689870934, 1261725578, 2100081583] := by
  unfold processChunk
  rw [show numBlocksFor 1024 = 16 from by decide]
  simp only [show (16:Nat) - 1 = 15 from rfl]
  have hblk : ∀ i : Nat, i ≤ 15 →
      List.take ((i * 64 + 64) ⊓ 1024 - i * 64) (List.drop (i * 64) (List.replicate 1024 0)) =
        List.replicate 64 0 := by
    intro i h
    rw [List.drop_replicate, List.take_replicate]
    congr 1
    omega
  have hlen : ∀ i : Nat, i ≤ 15 → (i * 64 + 64) ⊓ 1024 - i * 64 = 64 := by
    intro i h
    omega
  have hflag : ∀ i : Nat, i ≠ 0 → i ≠ 15 →
      Nat.lor (DERIVE_KEY_CONTEXT.lor (if i = 0 then CHUNK_START else 0))
        (if i = 15 then CHUNK_END else 0) = 32 := by
    intro i h0 h15
    rw [if_neg h0, if_neg h15]
    decide
  rw [foldl_range_succ, foldl_range_succ, foldl_range_succ, foldl_range_succ,
    foldl_range_succ, foldl_range_succ, foldl_range_succ, foldl_range_succ,
    foldl_range_succ, foldl_range_succ, foldl_range_succ, foldl_range_succ,
    foldl_range_succ, foldl_range_succ, foldl_range_succ, foldl_range_succ]
  rw [List.range_zero, List.foldl_nil]
  rw [hblk 0 (by omega), hblk 1 (by omega), hblk 2 (by omega), hblk 3 (by omega), hblk 4 (by omega), hblk 5 (by omega), hblk 6 (by omega), hblk 7 (by omega), hblk 8 (by omega), hblk 9 (by omega), hblk 10 (by omega), hblk 11 (by omega), hblk 12 (by omega), hblk 13 (by omega), hblk 14 (by omega), hblk 15 (by omega)]
  rw [hlen 0 (by omega), hlen 1 (by omega), hlen 2 (by omega), hlen 3 (by omega), hlen 4 (by omega), hlen 5 (by omega), hlen 6 (by omega), hlen 7 (by omega), hlen 8 (by omega), hlen 9 (by omega), hlen 10 (by omega), hlen 11 (by omega), hlen 12 (by omega), hlen 13 (by omega), hlen 14 (by omega), hlen 15 (by omega)]
  rw [hflag 1 (by omega) (by omega), hflag 2 (by omega) (by omega), hflag 3 (by omega) (by omega), hflag 4 (by omega) (by omega), hflag 5 (by omega) (by omega), hflag 6 (by omega) (by omega), hflag 7 (by omega) (by omega), hflag 8 (by omega) (by omega), hflag 9 (by omega) (by omega), hflag 10 (by omega) (by omega), hflag 11 (by omega) (by omega), hflag 12 (by omega) (by omega), hflag 13 (by omega) (by omega), hflag 14 (by omega) (by omega)]
  rw [show Nat.lor (DERIVE_KEY_CONTEXT.lor (if (0:Nat) = 0 then CHUNK_START else 0))
    (if (0:Nat) = 15 then CHUNK_END else 0) = 33 from by decide]
  rw [show Nat.lor (DERIVE_KEY_CONTEXT.lor (if (15:Nat) = 0 then CHUNK_START else 0))
    (if (15:Nat) = 15 then CHUNK_END else 0) = 34 from by decide]
  rw [zeroCvStep0]
  rw [zeroCvStep1]
  rw [zeroCvStep2]
  rw [zeroCvStep3]
  rw [zeroCvStep4]
  rw [zeroCvStep5]
  rw [zeroCvStep6]
  rw [zeroCvStep7]
  rw [zeroCvStep8]
  rw [zeroCvStep9]
  rw [zeroCvStep10]
  rw [zeroCvStep11]
  rw [zeroCvStep12]
  rw [zeroCvStep13]
  rw [zeroCvStep14]
  rw [zeroCvStep15End]

set_option maxRecDepth 4000 in
set_option maxHeartbeats 4000000 in
/-- The chunked (streaming) context hash of 1025 zero bytes. -/
theorem specContextCv_z1025 :
    specContextCv (List.replicate 1025 0) = [3380872676, 3672500653, 3133112482, 3204264975, 788523352, 4242159953, 3818891599, 2821598589] := by
  rw [specContextCv, updateBytes_feed_mk, List.length_replicate]
  rw [show processedChunks 1025 = 1 from by decide]
  rw [show (1024:Nat) * 1 = 1024 from rfl]
  rw [show List.drop 1024 (List.replicate 1025 0) = List.replicate 1 0 from by
    rw [List.drop_replicate]]
  rw [show chunkCvsFrom DERIVE_KEY_CONTEXT IV (List.replicate 1025 0) 0 1 =
    [processChunk (List.take 1024 (List.replicate 1025 0)) 0 DERIVE_KEY_CONTEXT IV 1024] from rfl]
  rw [show List.take 1024 (List.replicate 1025 0) = List.replicate 1024 0 from by
    rw [List.take_replicate]
    congr 1]
  rw [processChunk_zero1024]
  decide

/-! ### Small helpers for the claim theorems -/

theorem chunkCvsFrom_length (flags : Nat) (kc : List Nat) :
    ∀ (k : Nat) (S : List Nat) (c : Nat), (chunkCvsFrom flags kc S c k).length = k := by
  intro k
  induction k with
  | zero =>
    intro S c
    rfl
  | succ k ih =>
    intro S c
    simp [chunkCvsFrom, ih]

/-- Driving CVs into an empty stack from counter 0 builds exactly the
specification stack. -/
theorem driveStack_spec (flags : Nat) (kc : List Nat) (cvs : List (List Nat)) :
    driveStackGen flags kc [] 0 cvs = stackSpec flags kc cvs := by
  have h := driveStackGen_stackSpec flags kc cvs []
  rw [stackSpec_nil] at h
  simpa using h

theorem optCompress_length (cv block : List Nat) (counter blockLen flags : Nat) :
    (optCompress cv block counter blockLen flags).length = 16 := rfl

theorem singleChunkRootState_length (chunk : List Nat) (chunkLen baseFlags : Nat)
    (cv0 : List Nat) :
    (singleChunkRootState chunk chunkLen baseFlags cv0).length = 16 := rfl

/-- `wordsToOutput` reads only the first 16 words: every byte from
index 64 on is zero. -/
theorem wordsToOutput_getD (st : List Nat) (n i : Nat) (hst : st.length ≤ 16)
    (hi : 64 ≤ i) : (wordsToOutput st n).getD i 0 = 0 := by
  rcases lt_or_ge i n with h | h
  · rw [List.getD_eq_getElem _ _ (by simpa [wordsToOutput] using h)]
    simp only [wordsToOutput, List.getElem_map, List.getElem_range]
    have hz : idx st (i / 4) = 0 := by
      unfold idx
      exact List.getD_eq_default _ _ (by omega)
    rw [hz]
    simp
  · exact List.getD_eq_default _ _ (by simpa [wordsToOutput] using h)

theorem getD_replicate_zero (n i : Nat) : (List.replicate n (0:Nat)).getD i 0 = 0 := by
  rcases lt_or_ge i n with h | h
  · rw [List.getD_eq_getElem _ _ (by simpa using h)]
    simp
  · exact List.getD_eq_default _ _ (by simpa using h)

/-- Every byte of a one-shot digest from index 64 on is zero, whatever
the input and requested length. -/
theorem optHash_getD (input : List Nat) (n i : Nat) (hi : 64 ≤ i) :
    (optHash input n).getD i 0 = 0 := by
  unfold optHash
  split
  · exact wordsToOutput_getD _ n i (le_of_eq (optCompress_length _ _ _ _ _)) hi
  · split
    · exact wordsToOutput_getD _ n i
        (le_of_eq (singleChunkRootState_length _ _ _ _)) hi
    · simp only [optHashMulti]
      split
      · exact wordsToOutput_getD _ n i (le_of_eq (optCompress_length _ _ _ _ _)) hi
      · exact getD_replicate_zero n i

/-! ### The claims -/

set_option maxRecDepth 4000 in
set_option maxHeartbeats 1000000 in
/-- C1: the compression function's claimed shape — the 16-word state is
initialized from the chaining value, IV words, counter halves, block length
and flags, and after seven rounds the output is produced by the two-half
feed-forward `v[i] ^= v[i+8]; v[i+8] ^= cv[i]`.  The optimized compression
does exactly that (`optCompress` is `feedForwardFull` of its rounds state),
but `reference.ts` `compress` applies only the lower half
(`feedForwardLow`): on a concrete input its rounds state equals the
optimized one and its first eight output words agree with the claimed
output, yet the full output differs — the upper eight words are returned
without the `^= cv[i]` mixing, refuting the claim for `reference.ts`. -/
theorem claim1_compress_feed_forward :
    (∀ (cv block : List Nat) (counter blockLen flags : Nat),
      optCompress cv block counter blockLen flags =
        feedForwardFull (optRounds cv block counter blockLen flags) cv) ∧
    (∀ (cv block : List Nat) (counter blockLen flags : Nat),
      refCompress cv block counter blockLen flags =
        feedForwardLow (refRounds cv block counter blockLen flags)) ∧
    refRounds IV (List.replicate 64 0) 0 64 0 =
      optRounds IV (List.replicate 64 0) 0 64 0 ∧
    List.take 8 (refCompress IV (List.replicate 64 0) 0 64 0) =
      List.take 8 (feedForwardFull (refRounds IV (List.replicate 64 0) 0 64 0) IV) ∧
    refCompress IV (List.replicate 64 0) 0 64 0 ≠
      feedForwardFull (refRounds IV (List.replicate 64 0) 0 64 0) IV :=
  ⟨fun _ _ _ _ _ => rfl, fun _ _ _ _ _ => rfl, by decide, by decide, by decide⟩

set_option maxRecDepth 4000 in
set_option maxHeartbeats 1000000 in
/-- C2: for requested lengths up to one output block the code's serializer
agrees with the claimed output reader (successive counter-indexed output
blocks, truncated), but the code keeps no output-block counter at all:
byte 64 of `hash("", 65)` is 0 (the serializer reads past the 16 state
words, which coerces to 0) while the claimed reader emits byte 64 of the
counter-1 recompression, which is 38 — refuting the claim for lengths
beyond 64. -/
theorem claim2_xof_output :
    (∀ (cv block : List Nat) (blockLen flags n : Nat), n ≤ 64 →
      wordsToOutput (optCompress cv block 0 blockLen flags) n =
        xofBytes cv block blockLen flags n) ∧
    optHash [] 65 ≠
      xofBytes IV (padBlock []) 0 (Nat.lor (Nat.lor CHUNK_START CHUNK_END) ROOT) 65 := by
  constructor
  · intro cv block blockLen flags n hn
    unfold wordsToOutput xofBytes
    refine List.map_congr_left ?_
    intro i hi
    have hlt : i < 64 := by
      have := List.mem_range.mp hi
      omega
    rw [Nat.div_eq_of_lt hlt, Nat.mod_eq_of_lt hlt]
  · intro heq
    have h1 : (optHash [] 65).getD 64 99 = 0 := by decide
    have h2 : (xofBytes IV (padBlock []) 0
        (Nat.lor (Nat.lor CHUNK_START CHUNK_END) ROOT) 65).getD 64 99 = 38 := by decide
    rw [heq] at h1
    omega

/-- C2 witness: the agreement half of `claim2_xof_output` at a concrete
input — a 32-byte output of the empty-input root compression equals the
spec reader's first 32 bytes. -/
theorem claim2_xof_witness :
    (32:Nat) ≤ 64 ∧
      wordsToOutput (optCompress IV (padBlock []) 0 0
          (Nat.lor (Nat.lor CHUNK_START CHUNK_END) ROOT)) 32 =
        xofBytes IV (padBlock []) 0
          (Nat.lor (Nat.lor CHUNK_START CHUNK_END) ROOT) 32 :=
  ⟨by decide,
   claim2_xof_output.1 IV (padBlock []) 0
     (Nat.lor (Nat.lor CHUNK_START CHUNK_END) ROOT) 32 (by decide)⟩

set_option maxRecDepth 4000 in
set_option maxHeartbeats 1000000 in
/-- C3: the generated `MSG_SCHEDULE` of `blake3-fast/utils.ts` has exactly
seven rows, row 0 the identity, each later row the π-permutation of the
previous, and it coincides with the unrolled per-round schedules of the
optimized compression; the hard-coded table of
`Blake3inJavasScript/blake3.js` agrees on rows 0–3 but differs from it —
its row 4 is not π applied to its row 3 — refuting the claim for that
implementation. -/
theorem claim3_msg_schedule :
    MSG_SCHEDULE = [[0, 1, 2, 3, 4, 5, 6, 7, 8, 9, 10, 11, 12, 13, 14, 15],
      SCHED1, SCHED2, SCHED3, SCHED4, SCHED5, SCHED6] ∧
    MSG_SCHEDULE.length = 7 ∧
    ((List.range 6).all (fun r =>
      MSG_SCHEDULE.getD (r + 1) [] ==
        mapRow MSG_PERMUTATION (MSG_SCHEDULE.getD r [])) = true) ∧
    List.take 4 bk3MsgSchedule = List.take 4 MSG_SCHEDULE ∧
    bk3MsgSchedule ≠ MSG_SCHEDULE ∧
    bk3MsgSchedule.getD 4 [] ≠
      mapRow MSG_PERMUTATION (bk3MsgSchedule.getD 3 []) := by
  refine ⟨by decide, by decide, by decide, by decide, by decide, by decide⟩

/-- C4: a fresh plain hasher is `.ok initHasher`, and for every byte
sequence and every partition of it into consecutive segments (segments of
any size, empty ones included, so chunk, block and subtree boundaries may
be split arbitrarily), updating a fresh hasher with the segments in order
and finalizing 32 bytes returns exactly the one-shot 32-byte hash of the
concatenation. -/
theorem claim4_streaming_eq_oneshot :
    createHash none = Except.ok initHasher ∧
    ∀ parts : List (List Nat),
      digestBytes (parts.foldl updateBytes initHasher) 32 =
        optHash parts.flatten 32 := by
  refine ⟨rfl, fun parts => ?_⟩
  rw [foldl_updateBytes]
  exact digest_update_eq_optHash parts.flatten 32

/-- C5: pushing M chunk CVs through the tree driver (merge `ctz(c+1)`
times after pushing chunk c) leaves a stack of exactly `popcount M`
entries, and the stack is `stackSpec`: reading from the top, one balanced
subtree CV per set bit of M from the least significant bit (the last
`2^ctz(M)` leaves) up, the most significant bit's subtree at the base;
the streaming hasher's stack and counter after any input are exactly of
this shape over its processed chunks. -/
theorem claim5_stack_invariant :
    (∀ (flags : Nat) (kc : List Nat) (leafCvs : List (List Nat)),
      driveStackGen flags kc [] 0 leafCvs = stackSpec flags kc leafCvs ∧
      (driveStackGen flags kc [] 0 leafCvs).length = popcount leafCvs.length) ∧
    ∀ S : List Nat,
      (updateBytes initHasher S).chunkCounter = processedChunks S.length ∧
      (updateBytes initHasher S).cvStack =
        stackSpec 0 IV (chunkCvsFrom 0 IV S 0 (processedChunks S.length)) ∧
      (updateBytes initHasher S).cvStack.length =
        popcount (processedChunks S.length) := by
  refine ⟨fun flags kc leafCvs => ⟨driveStack_spec flags kc leafCvs, ?_⟩,
    fun S => ⟨?_, ?_, ?_⟩⟩
  · rw [driveStack_spec flags kc leafCvs]
    exact stackSpec_length flags kc leafCvs.length leafCvs le_rfl
  · rw [updateBytes_feed_init]
  · rw [updateBytes_feed_init]
    exact driveStack_spec 0 IV _
  · rw [updateBytes_feed_init]
    show (driveStackGen 0 IV [] 0
      (chunkCvsFrom 0 IV S 0 (processedChunks S.length))).length =
      popcount (processedChunks S.length)
    rw [driveStack_spec, stackSpec_length 0 IV
      (chunkCvsFrom 0 IV S 0 (processedChunks S.length)).length _ le_rfl,
      chunkCvsFrom_length]

set_option maxRecDepth 4000 in
set_option maxHeartbeats 1000000 in
/-- C6: the 32-byte digest of the empty input is
af1349b9f5f9a1a6a0404dea36dcc9499bcb25c9adc112b7cc9a93cae41f3262 — for
the optimized one-shot hash, the reference one-shot hash, and a fresh
hasher's finalize. -/
theorem claim6_empty_hash :
    optHash [] 32 = [175, 19, 73, 185, 245, 249, 161, 166, 160, 64, 77, 234, 54, 220, 201, 73, 155, 203, 37, 201, 173, 193, 18, 183, 204, 154, 147, 202, 228, 31, 50, 98] ∧
    refHash [] 32 = [175, 19, 73, 185, 245, 249, 161, 166, 160, 64, 77, 234, 54, 220, 201, 73, 155, 203, 37, 201, 173, 193, 18, 183, 204, 154, 147, 202, 228, 31, 50, 98] ∧
    digestBytes initHasher 32 = [175, 19, 73, 185, 245, 249, 161, 166, 160, 64, 77, 234, 54, 220, 201, 73, 155, 203, 37, 201, 173, 193, 18, 183, 204, 154, 147, 202, 228, 31, 50, 98] :=
  ⟨by decide, by decide, by decide⟩

set_option maxRecDepth 4000 in
set_option maxHeartbeats 1000000 in
/-- C7: the claim says the context CV is the root CV of hashing the
context bytes (initial CV = IV, base flags DERIVE_KEY_CONTEXT) for a
context of ANY length.  `deriveContextCv` instead drives the whole
context through one single chunk.  For contexts of at most one chunk the
two agree (proved below in general), but on 1025 zero bytes the
single-chunk loop and the chunked hash differ, refuting the claim for
long contexts. -/
theorem claim7_derive_context :
    (∀ context : List Nat, context.length ≤ 1024 →
      deriveContextCv context = specContextCv context) ∧
    deriveContextCv (List.replicate 1025 0) ≠
      specContextCv (List.replicate 1025 0) := by
  constructor
  · intro ctx hlen
    rw [specContextCv, updateBytes_feed_mk]
    have hK : processedChunks ctx.length = 0 := by
      simp only [processedChunks]
      split <;> omega
    rw [hK]
    rfl
  · intro heq
    rw [deriveContextCv_z1025, specContextCv_z1025] at heq
    exact absurd heq (by decide)

/-- C7 witness: the agreement half of `claim7_derive_context` at a
concrete short context. -/
theorem claim7_short_context_witness :
    ([97, 98, 99] : List Nat).length ≤ 1024 ∧
      deriveContextCv [97, 98, 99] = specContextCv [97, 98, 99] :=
  ⟨by decide, claim7_derive_context.1 [97, 98, 99] (by decide)⟩

/-- C8: `digest` assigns to no field of the hasher (it works on a copy of
the CV stack), so finalizing returns the state unchanged, and finalizing
again with the same length returns identical bytes. -/
theorem claim8_finalize_non_destructive :
    ∀ (st : HState) (n : Nat),
      (digestS st n).2 = st ∧
      (digestS ((digestS st n).2) n).1 = (digestS st n).1 :=
  fun _ _ => ⟨rfl, rfl⟩

/-- C9: the keyed constructors fail exactly when a key is supplied whose
length is not 32 bytes: `createHash` with no key succeeds, with a key it
succeeds iff the key has 32 bytes, and `keyedHash` likewise. -/
theorem claim9_key_length :
    (∀ k : List Nat, (∃ st, createHash (some k) = Except.ok st) ↔ k.length = 32) ∧
    createHash none = Except.ok initHasher ∧
    (∀ (k input : List Nat) (n : Nat),
      (∃ out, keyedHash k input n = Except.ok out) ↔ k.length = 32) := by
  refine ⟨fun k => ?_, rfl, fun k input n => ?_⟩
  · by_cases hk : k.length = 32
    · constructor
      · intro _
        exact hk
      · intro _
        refine ⟨⟨keyToCV k, [], 0, [], KEYED_HASH⟩, ?_⟩
        simp only [createHash]
        rw [if_neg (by omega)]
    · constructor
      · rintro ⟨st, hst⟩
        simp only [createHash] at hst
        rw [if_pos hk] at hst
        simp at hst
      · intro h
        exact absurd h hk
  · by_cases hk : k.length = 32
    · constructor
      · intro _
        exact hk
      · intro _
        refine ⟨digestBytes (updateBytes ⟨keyToCV k, [], 0, [], KEYED_HASH⟩ input) n, ?_⟩
        unfold keyedHash
        rw [if_neg (by omega)]
    · constructor
      · rintro ⟨out, hout⟩
        unfold keyedHash at hout
        rw [if_pos hk] at hout
        simp at hout
      · intro h
        exact absurd h hk

/-- C9 witness: a 32-byte key is accepted, a 3-byte key is rejected. -/
theorem claim9_key_witness :
    (∃ st, createHash (some (List.replicate 32 7)) = Except.ok st) ∧
      ¬ ∃ st, createHash (some [1, 2, 3]) = Except.ok st :=
  ⟨(claim9_key_length.1 (List.replicate 32 7)).mpr (by decide),
   fun h => by
    have := (claim9_key_length.1 [1, 2, 3]).mp h
    simp at this⟩

/-- C10: the output serializers index only the 16 words of the root
compression state and out-of-range reads coerce to zero, so for any
requested length every digest byte at index 64 or above is zero — for the
one-shot hash on every input, and for finalize on every hasher reached
from a fresh one by update. -/
theorem claim10_zero_extension :
    ∀ (input : List Nat) (n i : Nat), 64 ≤ i →
      (optHash input n).getD i 0 = 0 ∧
      (digestBytes (updateBytes initHasher input) n).getD i 0 = 0 := by
  intro input n i hi
  refine ⟨optHash_getD input n i hi, ?_⟩
  rw [digest_update_eq_optHash]
  exact optHash_getD input n i hi

/-- C10 witness: byte 64 of a 65-byte digest of the empty input is zero,
one-shot and streaming. -/
theorem claim10_zero_witness :
    (64:Nat) ≤ 64 ∧ (optHash [] 65).getD 64 0 = 0 ∧
      (digestBytes (updateBytes initHasher []) 65).getD 64 0 = 0 :=
  ⟨by decide, (claim10_zero_extension [] 65 64 (by decide)).1,
    (claim10_zero_extension [] 65 64 (by decide)).2⟩

end B3
